import Mathlib

/-!
Verification development for the memory-game frontend (Angular).

The definitions below are a shallow embedding of the game-session engine of
`GameBoardComponent` (file `src/unnamed/part_005`), of the markdown renderer
of `GameTileComponent` (`src/frontend/src/app/pages/game/game-tile.component.ts`),
and of the board-layout computation.  JavaScript numbers used for pixel
geometry are modelled as rationals; the wall-clock reading of `Date.now()` is
outside the state model, the timer is modelled by the two flags that the code
branches on (`timerInterval !== null`, `gameStartedAt !== null`).
-/

set_option maxRecDepth 6000

namespace MemoryGame

/-- `ImageAsset` from `models/types.ts` (part_003): filename and URL. -/
structure ImageAsset where
  filename : String
  url : String
deriving DecidableEq, Repr

/-- `TileState` from `models/types.ts`: 'hidden' | 'visible' | 'matched'. -/
inductive TileState where
  | hidden
  | visible
  | matched
deriving DecidableEq, Repr

/-- `GameTile` from `models/types.ts`: id, image, state. -/
structure GameTile where
  id : Nat
  image : ImageAsset
  state : TileState
deriving DecidableEq, Repr

/-- The mutable session state of `GameBoardComponent` (part_005): the
`tiles`, `attempts`, `columns`, `pairsToFind`, `loading` signals, the
private fields `revealedTileIds` and `pendingHideTimeout` (modelled as the
Boolean "a hide timeout is pending"), and the session-clock fields
`timerInterval !== null` (`timerRunning`) and `gameStartedAt !== null`
(`gameStartedSet`). -/
structure GameState where
  tiles : List GameTile
  attempts : Nat
  revealedTileIds : List Nat
  pendingHideTimeout : Bool
  loading : Bool
  timerRunning : Bool
  gameStartedSet : Bool
  columns : Nat
  pairsToFind : Nat
deriving DecidableEq, Repr

/-- `tiles.find((item) => item.id === tileId)` (part_005 line 135). -/
def findTile (tiles : List GameTile) (tileId : Nat) : Option GameTile :=
  tiles.find? (fun item => item.id == tileId)

/-- `matchedPairs` computed signal (part_005 lines 61-63). -/
def matchedPairs (s : GameState) : Nat :=
  (s.tiles.filter (fun tile => tile.state == TileState.matched)).length / 2

/-- `allPairsFound` computed signal (part_005 lines 65-67):
`tiles.length > 0 && tiles.every(t => t.state === 'matched')`. -/
def allPairsFound (s : GameState) : Bool :=
  !s.tiles.isEmpty && s.tiles.all (fun tile => tile.state == TileState.matched)

/-- `setTileState` (part_005 lines 427-435): map over the tile list,
replacing the state of every tile whose id equals `tileId`. -/
def setTileState (s : GameState) (tileId : Nat) (state : TileState) : GameState :=
  { s with tiles := s.tiles.map (fun tile =>
      if tile.id == tileId then { tile with state := state } else tile) }

/-- `hideMismatchedTiles` (part_005 lines 408-425): copy the revealed ids,
clear the pending timeout, and if the id list is nonempty flip every listed
tile that is still 'visible' back to 'hidden' and clear `revealedTileIds`. -/
def hideMismatchedTiles (s : GameState) : GameState :=
  let ids := s.revealedTileIds
  let s1 := { s with pendingHideTimeout := false }
  if ids.isEmpty then s1
  else
    { s1 with
      tiles := s1.tiles.map (fun tile =>
        if ids.contains tile.id && tile.state == TileState.visible
        then { tile with state := TileState.hidden } else tile),
      revealedTileIds := [] }

/-- `evaluateRevealedTiles` (part_005 lines 386-406): look up the two
revealed tiles; if either is missing just clear the selection; if their
image filenames agree mark both 'matched' and clear the selection;
otherwise schedule the mismatch-hide timeout. -/
def evaluateRevealedTiles (s : GameState) : GameState :=
  match s.revealedTileIds with
  | firstId :: secondId :: _ =>
    match findTile s.tiles firstId, findTile s.tiles secondId with
    | some firstTile, some secondTile =>
      if firstTile.image.filename == secondTile.image.filename then
        let s1 := setTileState s firstId TileState.matched
        let s2 := setTileState s1 secondId TileState.matched
        { s2 with revealedTileIds := [] }
      else
        { s with pendingHideTimeout := true }
    | _, _ => { s with revealedTileIds := [] }
  | _ => { s with revealedTileIds := [] }

/-- `startTimer` (part_005 lines 156-178): a no-op when an interval is
already running; otherwise record the start and run the interval.  The
`Date.now()` arithmetic feeding `elapsedSeconds` is real-time and outside
the state model. -/
def startTimer (s : GameState) : GameState :=
  if s.timerRunning then s
  else { s with timerRunning := true, gameStartedSet := true }

/-- `stopTimer` (part_005 lines 180-196): clear the interval and the
recorded start (the accumulated-seconds bookkeeping is real-time and
outside the state model). -/
def stopTimer (s : GameState) : GameState :=
  { s with timerRunning := false, gameStartedSet := false }

/-- `onTileSelected` (part_005 lines 133-154): ignore the event unless the
tile exists, is 'hidden' and the board is not loading; force-resolve a
pending mismatch first; start the clock; reveal the tile; and on the second
reveal bump `attempts` and evaluate the pair. -/
def onTileSelected (s : GameState) (tileId : Nat) : GameState :=
  match findTile s.tiles tileId with
  | none => s
  | some tile =>
    if tile.state != TileState.hidden || s.loading then s
    else
      let s1 := if s.pendingHideTimeout then hideMismatchedTiles s else s
      let s2 := startTimer s1
      let s3 := setTileState s2 tileId TileState.visible
      let s4 := { s3 with revealedTileIds := s3.revealedTileIds ++ [tileId] }
      if s4.revealedTileIds.length == 2 then
        evaluateRevealedTiles { s4 with attempts := s4.attempts + 1 }
      else s4

/-- The `effect` of part_005 lines 97-101: whenever `allPairsFound` becomes
true the session clock is stopped.  Angular runs the effect after each
signal update, so it is applied after every state-changing event. -/
def applyCompletionEffect (s : GameState) : GameState :=
  if allPairsFound s then stopTimer s else s

/-- The two external play events the session reacts to: a tile-selection
and the expiry of the mismatch-hide timeout scheduled in
`evaluateRevealedTiles`.  An expiry only happens while the timeout is
pending (`clearPendingTimeout` cancels it otherwise). -/
inductive GameEvent where
  | select (tileId : Nat)
  | timeoutFire
deriving DecidableEq, Repr

/-- One event step of the session, including the completion effect. -/
def step (s : GameState) : GameEvent → GameState
  | GameEvent.select tileId => applyCompletionEffect (onTileSelected s tileId)
  | GameEvent.timeoutFire =>
      if s.pendingHideTimeout then applyCompletionEffect (hideMismatchedTiles s) else s

/-- Run a sequence of play events. -/
def run (s : GameState) : List GameEvent → GameState
  | [] => s
  | e :: rest => run (step s e) rest

/-- Number of tiles currently in state 'visible'. -/
def countVisible (s : GameState) : Nat :=
  (s.tiles.filter (fun tile => tile.state == TileState.visible)).length

/-! ### Deck builder (`setupGame`, `createTile`, `shuffle`, part_005) -/

/-- `GAME_CONFIG.defaultTileColumns` (config/game-config.ts). -/
def defaultTileColumns : Nat := 6

/-- The swap `[items[i], items[j]] = [items[j], items[i]]` inside `shuffle`
(part_005 line 449); out-of-range indices leave the list unchanged (they
cannot occur in the loop). -/
def listSwap (l : List α) (i j : Nat) : List α :=
  match l.get? i, l.get? j with
  | some a, some b => (l.set i b).set j a
  | _, _ => l

/-- The loop of `shuffle` (part_005 lines 446-452), counting `i` down to 1;
`rnd i` stands for the value `Math.floor(Math.random() * (i + 1))` drawn at
index `i`, reduced mod `i + 1` so that any oracle is in range. -/
def shuffleGo (rnd : Nat → Nat) : Nat → List α → List α
  | 0, l => l
  | i + 1, l => shuffleGo rnd i (listSwap l (i + 1) (rnd (i + 1) % (i + 2)))

/-- `shuffle` (part_005 lines 446-452): unbiased Fisher-Yates, parameterised
by the random oracle `rnd`. -/
def shuffle (rnd : Nat → Nat) (items : List α) : List α :=
  shuffleGo rnd (items.length - 1) items

/-- `createTile` (part_005 lines 437-444) unrolled over
`selectedImages.flatMap((image) => [createTile(image), createTile(image)])`
(lines 371-376): `tileIdCounter` is incremented before each tile, so the
two tiles of an image get ids `counter+1` and `counter+2`. -/
def createTilePairs (counter : Nat) : List ImageAsset → List GameTile
  | [] => []
  | image :: rest =>
      { id := counter + 1, image := image, state := TileState.hidden } ::
      { id := counter + 2, image := image, state := TileState.hidden } ::
      createTilePairs (counter + 2) rest

/-- `clampColumns` (part_005 lines 466-476).  The argument reaching it is a
nonnegative integer (`parsePositiveInt` output or the default), so the
`Math.floor`/`NaN` handling is the identity here. -/
def clampColumns (value : Nat) (totalTiles : Nat) : Nat :=
  let minColumns := 2
  let safeTotal := max minColumns totalTiles
  min (max value minColumns) safeTotal

/-- `setupGame` (part_005 lines 346-384).  `none` models the error path
(`availablePairs < 2`: error message, no session).  `rnd1`/`rnd2` are the
random oracles of the two `shuffle` calls. -/
def setupGame (images : List ImageAsset) (requestedPairs : Nat)
    (requestedColumns : Option Nat) (rnd1 rnd2 : Nat → Nat) : Option GameState :=
  let availablePairs := images.length
  if availablePairs < 2 then none
  else
    let pairs := min requestedPairs availablePairs
    let selectedImages := (shuffle rnd1 images).take pairs
    let totalTiles := pairs * 2
    let columns := clampColumns (requestedColumns.getD defaultTileColumns) totalTiles
    let tiles := shuffle rnd2 (createTilePairs 0 selectedImages)
    some
      { tiles := tiles
        attempts := 0
        revealedTileIds := []
        pendingHideTimeout := false
        loading := false
        timerRunning := false
        gameStartedSet := false
        columns := columns
        pairsToFind := pairs }

/-- `parsePositiveInt` (part_005 lines 478-490).  Its argument's numeric
value is modelled as an `Option Int`: `none` for a missing parameter or a
non-finite `Number(raw)`; `Math.floor` of a finite value is the integer
itself.  Values `>= 0` are accepted, negatives rejected. -/
def parsePositiveInt (raw : Option Int) : Option Nat :=
  match raw with
  | none => none
  | some numeric => if 0 ≤ numeric then some numeric.toNat else none

/-- The constructor guard (part_005 lines 103-113): with no collection id,
an unparsable `pairs` parameter, or `pairsParam < 2`, the component
navigates back to the start page and no session is created. -/
def constructorGuard (collectionId : Option String) (pairsRaw : Option Int) :
    Option Nat :=
  match collectionId with
  | none => none
  | some _ =>
    match parsePositiveInt pairsRaw with
    | none => none
    | some pairsParam => if pairsParam < 2 then none else some pairsParam

/-- Session start: the constructor guard followed by `loadCollection` /
`setupGame` on the fetched images (part_005 lines 103-113, 305-344,
346-384). -/
def startSession (collectionId : Option String) (pairsRaw columnsRaw : Option Int)
    (images : List ImageAsset) (rnd1 rnd2 : Nat → Nat) : Option GameState :=
  match constructorGuard collectionId pairsRaw with
  | none => none
  | some requestedPairs =>
      setupGame images requestedPairs (parsePositiveInt columnsRaw) rnd1 rnd2

/-! ### Layout engine (`rows`, `resolveGap`, `updateBoardLayout`, part_005) -/

/-- The `rows` computed signal (part_005 lines 69-76):
`Math.ceil(tileCount / columnCount)`, with 0 for an empty board or a
non-positive column count. -/
def rowsFor (tileCount columnCount : Nat) : Nat :=
  if columnCount = 0 || tileCount = 0 then 0
  else Nat.ceil ((tileCount : ℚ) / (columnCount : ℚ))

/-- `Math.round` on a rational: floor of `x + 1/2` (this is what JS
`Math.round` computes for every finite argument). -/
def jsRound (x : ℚ) : ℤ := Int.floor (x + 1 / 2)

/-- `resolveGap` (part_005 lines 283-290); `baseGapPx = 16`, `minGapPx = 8`,
`maxGapPx = 24`.  The float literals 0.65 / 0.8 round to the same gaps as
their exact rational counterparts. -/
def resolveGap (columns : Nat) : ℚ :=
  if columns = 0 then 16
  else
    let scaling : ℚ := if 10 ≤ columns then 13 / 20 else if 8 ≤ columns then 4 / 5 else 1
    let candidate : ℚ := 16 * scaling
    max 8 (min 24 ((jsRound candidate : ℤ) : ℚ))

/-- `minTileSizePx` (part_005 line 56). -/
def minTileSizePx : ℚ := 32

/-- `updateBoardLayout` (part_005 lines 224-281) as a function of the
available width, the available height (`innerHeight - boardRectTop -
paddingBottom`), the column count and the row count.  `none` models the
early returns that publish no new geometry; `some ts` the published square
tile size.  Over the rationals every computed value is finite, so the
`Number.isFinite` guards are satisfied. -/
def updateBoardLayout (availableWidth availableHeight : ℚ)
    (columns rows : Nat) : Option ℚ :=
  if columns = 0 || rows = 0 then none
  else if availableWidth = 0 then none
  else
    let gap := resolveGap columns
    let horizontalGapTotal := gap * (max (columns - 1) 0 : Nat)
    let verticalGapTotal := gap * (max (rows - 1) 0 : Nat)
    let widthLimitedSize := (availableWidth - horizontalGapTotal) / (columns : ℚ)
    let tileSize0 := widthLimitedSize
    let tileSize1 :=
      if 0 < availableHeight then
        let heightLimitedSize := (availableHeight - verticalGapTotal) / (rows : ℚ)
        if 0 < heightLimitedSize then min widthLimitedSize heightLimitedSize
        else tileSize0
      else tileSize0
    let tileSize2 :=
      if tileSize1 ≤ 0 then
        (if 0 < widthLimitedSize then widthLimitedSize else minTileSizePx)
      else tileSize1
    let tileSize3 :=
      if 0 < widthLimitedSize then min (max tileSize2 minTileSizePx) widthLimitedSize
      else max tileSize2 minTileSizePx
    if tileSize3 ≤ 0 then none else some tileSize3

/-- The width-constrained tile size `(availableWidth - gap*(c-1)) / c`
(part_005 line 252). -/
def widthLimited (availableWidth : ℚ) (columns : Nat) : ℚ :=
  (availableWidth - resolveGap columns * (max (columns - 1) 0 : Nat)) / (columns : ℚ)

/-! ### Content renderer (`transformMarkdown`, `escapeHtml`,
game-tile.component.ts lines 101-135).

Strings are modelled as `List Char`; each JS regex pass is a left-to-right
scanner with the exact match semantics of the pattern.  The scanners carry
a fuel argument (each step consumes at least one input character, so fuel
`= length` always suffices; exhausted fuel returns the rest unchanged). -/

/-- The backtick character. -/
def btk : Char := Char.ofNat 96

/-- The double-quote character. -/
def dq : Char := Char.ofNat 34

/-- The apostrophe character. -/
def apos : Char := Char.ofNat 39

/-- One global single-character `String.replace`: every occurrence of `c`
is replaced by `rep`. -/
def replaceChar (c : Char) (rep : List Char) : List Char → List Char
  | [] => []
  | x :: xs => if x = c then rep ++ replaceChar c rep xs else x :: replaceChar c rep xs

/-- `escapeHtml` (game-tile.component.ts lines 123-130): the five global
replaces `&`→`&amp;`, `<`→`&lt;`, `>`→`&gt;`, `"`→`&quot;`, `'`→`&#39;`,
applied in this order. -/
def escapeHtml (value : List Char) : List Char :=
  replaceChar apos "&#39;".data
    (replaceChar dq "&quot;".data
      (replaceChar '>' "&gt;".data
        (replaceChar '<' "&lt;".data
          (replaceChar '&' "&amp;".data value))))

/-- `source.replace(/\r\n/g, '\n')` (line 102). -/
def normalizeNewlines : List Char → List Char
  | '\r' :: '\n' :: rest => '\n' :: normalizeNewlines rest
  | c :: rest => c :: normalizeNewlines rest
  | [] => []

/-- Membership in the `\w#+-` class of the fence pattern (`[\w#+-]*`). -/
def isLangChar (c : Char) : Bool :=
  ('a' ≤ c && c ≤ 'z') || ('A' ≤ c && c ≤ 'Z') || ('0' ≤ c && c ≤ '9') ||
    c = '_' || c = '#' || c = '+' || c = '-'

/-- Membership in the `[a-z0-9+#-]` class of `normalizeLanguage`. -/
def isSafeLangChar (c : Char) : Bool :=
  ('a' ≤ c && c ≤ 'z') || ('0' ≤ c && c ≤ '9') || c = '+' || c = '#' || c = '-'

/-- `normalizeLanguage` (lines 132-135): trim, lower-case, and drop every
character outside `[a-z0-9+#-]`. -/
def normalizeLanguage (value : List Char) : List Char :=
  let trimmed := ((value.dropWhile Char.isWhitespace).reverse.dropWhile
      Char.isWhitespace).reverse.map Char.toLower
  trimmed.filter isSafeLangChar

/-- Does the list start with three backticks? -/
def isTripleTick : List Char → Bool
  | a :: b :: c :: _ => a = btk && b = btk && c = btk
  | _ => false

/-- Split at the first occurrence of three backticks (the lazy
`([\s\S]*?)` of the fence pattern): returns the content before it and the
rest after it. -/
def findClose : List Char → Option (List Char × List Char)
  | [] => none
  | c :: rest =>
      if isTripleTick (c :: rest) then some ([], rest.drop 2)
      else (findClose rest).map (fun p => (c :: p.1, p.2))

/-- Try to match the fence pattern ```` ```([\w#+-]*)\n([\s\S]*?)``` ````
anchored at the start of the list: returns language run, content, and the
rest after the closing backticks. -/
def fenceAt (l : List Char) : Option (List Char × List Char × List Char) :=
  match l with
  | a :: b :: c :: rest =>
    if a = btk ∧ b = btk ∧ c = btk then
      let after := rest.dropWhile isLangChar
      match after with
      | nl :: body =>
        if nl = '\n' then
          match findClose body with
          | some (content, rest2) => some (rest.takeWhile isLangChar, content, rest2)
          | none => none
        else none
      | [] => none
    else none
  | _ => none

/-- `code.replace(/\n+$/, '')` (line 108): strip trailing newlines. -/
def dropTrailingNewlines (l : List Char) : List Char :=
  (l.reverse.dropWhile (fun c => c = '\n')).reverse

/-- The wrapped HTML remembered for a fence (line 109):
`<pre><code class="language-...">escaped</code></pre>`, the class attribute
present only for a nonempty sanitised language. -/
def buildCodeHtml (lang content : List Char) : List Char :=
  let safeLang := normalizeLanguage lang
  let escapedCode := escapeHtml (dropTrailingNewlines content)
  "<pre><code".data ++
    (if safeLang.isEmpty then []
     else " class=".data ++ [dq] ++ "language-".data ++ safeLang ++ [dq]) ++
    ">".data ++ escapedCode ++ "</code></pre>".data

/-- The placeholder token `__CODE_BLOCK_i__` (line 110). -/
def placeholderToken (i : Nat) : List Char :=
  "__CODE_BLOCK_".data ++ (toString i).data ++ "__".data

/-- The global fence pass (lines 104-113): scan left to right, replacing
each fence match by its placeholder and remembering the wrapped HTML; on a
failed match advance one character. -/
def fenceScanF : Nat → List Char → List (List Char) → List Char × List (List Char)
  | 0, l, acc => (l, acc)
  | _ + 1, [], acc => ([], acc)
  | fuel + 1, c :: rest, acc =>
    match fenceAt (c :: rest) with
    | some (lang, content, rest2) =>
        let r := fenceScanF fuel rest2 (acc ++ [buildCodeHtml lang content])
        (placeholderToken acc.length ++ r.1, r.2)
    | none =>
        let r := fenceScanF fuel rest acc
        (c :: r.1, r.2)

/-- Lazy closing scan for `/\*\*(.+?)\*\*/`: after an opening `**`, find
the shortest nonempty newline-free run followed by `**` (fewer than three
remaining characters cannot close the pattern). -/
def boldClose : List Char → Option (List Char × List Char)
  | c :: d :: e :: rest2 =>
      if c = '\n' then none
      else if d = '*' ∧ e = '*' then some ([c], rest2)
      else (boldClose (d :: e :: rest2)).map (fun p => (c :: p.1, p.2))
  | _ => none

/-- `working.replace(/\*\*(.+?)\*\*/g, '<strong>$1</strong>')` (line 116):
on `**` with a lazy close, wrap the content; on `**` with no close, or a
lone `*`, copy one character and continue (the regex scan advances one
position after a failed match attempt). -/
def boldPassF : Nat → List Char → List Char
  | 0, l => l
  | _ + 1, [] => []
  | fuel + 1, '*' :: '*' :: rest1 =>
      match boldClose rest1 with
      | some (content, rest2) =>
          "<strong>".data ++ content ++ "</strong>".data ++ boldPassF fuel rest2
      | none => '*' :: boldPassF fuel ('*' :: rest1)
  | fuel + 1, c :: rest => c :: boldPassF fuel rest

/-- ``working.replace(/`([^`]+)`/g, '<code>$1</code>')`` (line 117): on a
backtick, the greedy `[^`]+` is the run of non-backticks up to the next
backtick; a missing closing backtick or an empty run fails the match and
the scan advances one character. -/
def codeTickPassF : Nat → List Char → List Char
  | 0, l => l
  | _ + 1, [] => []
  | fuel + 1, c :: rest =>
      if c = btk then
        (let content := rest.takeWhile (fun x => x != btk)
         let after := rest.dropWhile (fun x => x != btk)
         if after.isEmpty then c :: codeTickPassF fuel rest
         else if content.isEmpty then c :: codeTickPassF fuel rest
         else "<code>".data ++ content ++ "</code>".data ++ codeTickPassF fuel after.tail)
      else c :: codeTickPassF fuel rest

/-- Does `pat` occur at the very start of `l`? -/
def leadsWith : List Char → List Char → Bool
  | [], _ => true
  | _ :: _, [] => false
  | p :: ps, c :: cs => p = c && leadsWith ps cs

/-- Numeric value of a digit run (`Number(index)` on the captured digits). -/
def digitsVal (l : List Char) : Nat :=
  l.foldl (fun n c => n * 10 + (c.toNat - 48)) 0

/-- Try to match `/__CODE_BLOCK_(\d+)__/` anchored at the start of the
list: returns the index and the rest after the match. -/
def restoreAt (l : List Char) : Option (Nat × List Char) :=
  if leadsWith "__CODE_BLOCK_".data l then
    let afterTag := l.drop 13
    let digits := afterTag.takeWhile Char.isDigit
    match digits, afterTag.dropWhile Char.isDigit with
    | _ :: _, u1 :: u2 :: rest2 =>
        if u1 = '_' ∧ u2 = '_' then some (digitsVal digits, rest2) else none
    | _, _ => none
  else none

/-- `working.replace(/__CODE_BLOCK_(\d+)__/g, ...)` (line 120): restore
each placeholder from the remembered list, the empty string for an
out-of-range index. -/
def restorePassF (ph : List (List Char)) : Nat → List Char → List Char
  | 0, l => l
  | _ + 1, [] => []
  | fuel + 1, c :: rest =>
      match restoreAt (c :: rest) with
      | some (idx, rest2) => ph.getD idx [] ++ restorePassF ph fuel rest2
      | none => c :: restorePassF ph fuel rest

/-- `transformMarkdown` (game-tile.component.ts lines 101-121): normalise
newlines; extract and protect fenced code blocks; escape the remainder;
apply bold, inline-code and line-break substitutions on the escaped text;
restore the placeholders last. -/
def transformMarkdown (source : List Char) : List Char :=
  let normalized := normalizeNewlines source
  let scanned := fenceScanF normalized.length normalized []
  let working1 := escapeHtml scanned.1
  let working2 := boldPassF working1.length working1
  let working3 := codeTickPassF working2.length working2
  let working4 := replaceChar '\n' "<br />".data working3
  restorePassF scanned.2 working4.length working4

/-- Decidable substring check: does `pat` occur anywhere in `l`? -/
def containsSeq (pat : List Char) : List Char → Bool
  | [] => pat.isEmpty
  | c :: rest => leadsWith pat (c :: rest) || containsSeq pat rest

/-- What may follow a `<` in transformed output: every `<` is the start of
one of the generated tags (`<strong>`, `</...>`, `<code...`, `<br />`,
`<pre>`), so the character after it is `/`, `b`, `p`, `c`, or an `s`
followed by `t`. -/
def angleTailOk : List Char → Bool
  | c :: rest =>
      if c = '/' || c = 'b' || c = 'p' || c = 'c' then true
      else if c = 's' then
        (match rest with
         | t :: _ => t = 't'
         | [] => false)
      else false
  | [] => false

/-- Every `<` in the list is followed by a permitted tag tail. -/
def angleOk : List Char → Bool
  | [] => true
  | c :: rest => (if c = '<' then angleTailOk rest else true) && angleOk rest

/-- The identity-and-payload part of a tile — everything except its
`state`. -/
def tileKey (t : GameTile) : Nat × ImageAsset := (t.id, t.image)

/-- A tile is 'visible' exactly when its id is in the revealed list. -/
def visibleIffRevealed (s : GameState) : Prop :=
  ∀ t ∈ s.tiles, (t.state = TileState.visible ↔ t.id ∈ s.revealedTileIds)

/-- The session invariant maintained by every play event: tile ids are
pairwise distinct, at most two ids are revealed (each existing, without
duplicates), the 'visible' tiles are exactly the revealed ones, and the
mismatch timeout is pending iff a full (unresolved) pair is revealed. -/
def Inv (s : GameState) : Prop :=
  (s.tiles.map (fun t => t.id)).Nodup ∧
  s.revealedTileIds.Nodup ∧
  s.revealedTileIds.length ≤ 2 ∧
  (∀ i ∈ s.revealedTileIds, ∃ t ∈ s.tiles, t.id = i) ∧
  visibleIffRevealed s ∧
  (s.pendingHideTimeout = true ↔ s.revealedTileIds.length = 2)

/-- The guard of `onTileSelected` (part_005 line 137), as a predicate: the
selection is processed iff the tile exists, is 'hidden', and the board is
not loading. -/
def selectionAccepted (s : GameState) (tileId : Nat) : Bool :=
  (match findTile s.tiles tileId with
   | some tile => tile.state == TileState.hidden
   | none => false) && !s.loading

/-! ### Concrete fixtures used by witnesses and counterexamples -/

/-- A two-image collection. -/
def imagesAB : List ImageAsset := [⟨"a", "u"⟩, ⟨"b", "v"⟩]

/-- A two-image collection whose two images share the filename "a". -/
def imagesDup : List ImageAsset := [⟨"a", "u"⟩, ⟨"a", "v"⟩]

/-- The identity random oracle: `shuffle` with it swaps every index with
itself, leaving the list in place. -/
def rndId : Nat → Nat := fun i => i

/-- The session `setupGame imagesAB 2 none rndId rndId` starts with. -/
def sessionAB : GameState :=
  { tiles :=
      [ { id := 1, image := ⟨"a", "u"⟩, state := TileState.hidden }
      , { id := 2, image := ⟨"a", "u"⟩, state := TileState.hidden }
      , { id := 3, image := ⟨"b", "v"⟩, state := TileState.hidden }
      , { id := 4, image := ⟨"b", "v"⟩, state := TileState.hidden } ]
    attempts := 0
    revealedTileIds := []
    pendingHideTimeout := false
    loading := false
    timerRunning := false
    gameStartedSet := false
    columns := 4
    pairsToFind := 2 }

/-- A finished board: both tiles of the single pair are matched. -/
def sessionDone : GameState :=
  { tiles :=
      [ { id := 1, image := ⟨"a", "u"⟩, state := TileState.matched }
      , { id := 2, image := ⟨"a", "u"⟩, state := TileState.matched } ]
    attempts := 1
    revealedTileIds := []
    pendingHideTimeout := false
    loading := false
    timerRunning := false
    gameStartedSet := false
    columns := 2
    pairsToFind := 1 }

/-- A board with two mismatched tiles revealed and the hide timeout
pending. -/
def sessionMismatch : GameState :=
  { tiles :=
      [ { id := 1, image := ⟨"a", "u"⟩, state := TileState.visible }
      , { id := 2, image := ⟨"a", "u"⟩, state := TileState.hidden }
      , { id := 3, image := ⟨"b", "v"⟩, state := TileState.visible }
      , { id := 4, image := ⟨"b", "v"⟩, state := TileState.hidden } ]
    attempts := 1
    revealedTileIds := [1, 3]
    pendingHideTimeout := true
    loading := false
    timerRunning := true
    gameStartedSet := true
    columns := 4
    pairsToFind := 2 }

/-- A board with the single tile 1 revealed (first reveal of an attempt). -/
def sessionOneRevealed : GameState :=
  { tiles :=
      [ { id := 1, image := ⟨"a", "u"⟩, state := TileState.visible }
      , { id := 2, image := ⟨"a", "u"⟩, state := TileState.hidden }
      , { id := 3, image := ⟨"b", "v"⟩, state := TileState.hidden }
      , { id := 4, image := ⟨"b", "v"⟩, state := TileState.hidden } ]
    attempts := 0
    revealedTileIds := [1]
    pendingHideTimeout := false
    loading := false
    timerRunning := true
    gameStartedSet := true
    columns := 4
    pairsToFind := 2 }

/-- A board with the two tiles of pair "a" revealed, about to be
evaluated. -/
def sessionMatchReady : GameState :=
  { tiles :=
      [ { id := 1, image := ⟨"a", "u"⟩, state := TileState.visible }
      , { id := 2, image := ⟨"a", "u"⟩, state := TileState.visible }
      , { id := 3, image := ⟨"b", "v"⟩, state := TileState.hidden }
      , { id := 4, image := ⟨"b", "v"⟩, state := TileState.hidden } ]
    attempts := 1
    revealedTileIds := [1, 2]
    pendingHideTimeout := false
    loading := false
    timerRunning := true
    gameStartedSet := true
    columns := 4
    pairsToFind := 2 }

/-! ### Basic facts about the session operations -/

theorem hideMismatchedTiles_attempts (s : GameState) :
    (hideMismatchedTiles s).attempts = s.attempts := by
  simp only [hideMismatchedTiles]
  split <;> rfl

theorem hideMismatchedTiles_revealedTileIds (s : GameState) :
    (hideMismatchedTiles s).revealedTileIds = [] := by
  cases h : s.revealedTileIds <;> simp [hideMismatchedTiles, h]

theorem hideMismatchedTiles_pending (s : GameState) :
    (hideMismatchedTiles s).pendingHideTimeout = false := by
  simp only [hideMismatchedTiles]
  split <;> rfl

theorem startTimer_tiles (s : GameState) : (startTimer s).tiles = s.tiles := by
  simp only [startTimer]; split <;> rfl

theorem startTimer_attempts (s : GameState) : (startTimer s).attempts = s.attempts := by
  simp only [startTimer]; split <;> rfl

theorem startTimer_revealedTileIds (s : GameState) :
    (startTimer s).revealedTileIds = s.revealedTileIds := by
  simp only [startTimer]; split <;> rfl

theorem startTimer_pending (s : GameState) :
    (startTimer s).pendingHideTimeout = s.pendingHideTimeout := by
  simp only [startTimer]; split <;> rfl

theorem evaluateRevealedTiles_attempts (s : GameState) :
    (evaluateRevealedTiles s).attempts = s.attempts := by
  unfold evaluateRevealedTiles
  repeat' split
  all_goals rfl

theorem applyCompletionEffect_tiles (s : GameState) :
    (applyCompletionEffect s).tiles = s.tiles := by
  simp only [applyCompletionEffect, stopTimer]; split <;> rfl

theorem applyCompletionEffect_attempts (s : GameState) :
    (applyCompletionEffect s).attempts = s.attempts := by
  simp only [applyCompletionEffect, stopTimer]; split <;> rfl

theorem applyCompletionEffect_revealedTileIds (s : GameState) :
    (applyCompletionEffect s).revealedTileIds = s.revealedTileIds := by
  simp only [applyCompletionEffect, stopTimer]; split <;> rfl

theorem applyCompletionEffect_pending (s : GameState) :
    (applyCompletionEffect s).pendingHideTimeout = s.pendingHideTimeout := by
  simp only [applyCompletionEffect, stopTimer]; split <;> rfl

/-- The attempt counter after one selection event, in closed form. -/
theorem onTileSelected_attempts (s : GameState) (tileId : Nat) :
    (onTileSelected s tileId).attempts =
      if selectionAccepted s tileId = true ∧
          (if s.pendingHideTimeout = true then 0 else s.revealedTileIds.length) + 1 = 2
      then s.attempts + 1 else s.attempts := by
  unfold onTileSelected selectionAccepted
  cases hf : findTile s.tiles tileId with
  | none => simp
  | some tile =>
    by_cases hst : tile.state = TileState.hidden
    · by_cases hld : s.loading
      · simp [hst, hld]
      · have hrev :
            (startTimer (if s.pendingHideTimeout then hideMismatchedTiles s else s)).revealedTileIds
              = (if s.pendingHideTimeout = true then [] else s.revealedTileIds) := by
          rw [startTimer_revealedTileIds]
          split <;> simp [hideMismatchedTiles_revealedTileIds]
        have hatt :
            (startTimer (if s.pendingHideTimeout then hideMismatchedTiles s else s)).attempts
              = s.attempts := by
          rw [startTimer_attempts]
          split <;> simp [hideMismatchedTiles_attempts]
        simp only [hst, hld, bne_self_eq_false, Bool.false_or, if_neg, Bool.not_false,
          Bool.and_true, beq_self_eq_true, Bool.true_and, if_false, setTileState]
        by_cases hp : s.pendingHideTimeout = true
        · simp only [hp, if_true, hrev, hatt] at *
          by_cases h2 : s.revealedTileIds.length = 0 + 1 + 0
          all_goals
            simp [hp, hrev, hatt, evaluateRevealedTiles_attempts, Nat.beq_eq_true_eq]
        · simp only [Bool.not_eq_true] at hp
          simp [hp, hrev, hatt, evaluateRevealedTiles_attempts, Nat.beq_eq_true_eq]
          split <;> simp_all [evaluateRevealedTiles_attempts]
    · simp only [ne_eq, hst, not_false_eq_true, bne_iff_ne, if_pos, Bool.true_or]
      simp [hst]

/-- A rejected selection leaves the state untouched. -/
theorem onTileSelected_not_accepted (s : GameState) (tileId : Nat)
    (h : selectionAccepted s tileId = false) : onTileSelected s tileId = s := by
  unfold selectionAccepted at h
  unfold onTileSelected
  cases hf : findTile s.tiles tileId with
  | none => rfl
  | some tile =>
    rw [hf] at h
    rcases Bool.and_eq_false_iff.mp h with h1 | h1
    · have : tile.state ≠ TileState.hidden := by
        intro hc
        simp [hc] at h1
      simp [this]
    · have : s.loading = true := by
        cases hl : s.loading with
        | false => simp [hl] at h1
        | true => rfl
      simp [this]

/-- Claim C6: the attempt counter increases by exactly 1 on each accepted
selection that makes the revealed list reach length 2 (the second reveal of
a pair-attempt, counting an interrupt of a pending mismatch cooldown as a
new first reveal), stays unchanged on every first reveal and on every
ignored selection (which leaves the whole state untouched), and stays
unchanged on mismatch-timer expiry. -/
theorem claim_C6_attempts_once_per_second_reveal :
    ∀ (s : GameState) (tileId : Nat),
      ((onTileSelected s tileId).attempts =
        if selectionAccepted s tileId = true ∧
            (if s.pendingHideTimeout = true then 0 else s.revealedTileIds.length) + 1 = 2
        then s.attempts + 1 else s.attempts) ∧
      (selectionAccepted s tileId = false → onTileSelected s tileId = s) ∧
      (step s GameEvent.timeoutFire).attempts = s.attempts := by
  intro s tileId
  refine ⟨onTileSelected_attempts s tileId, onTileSelected_not_accepted s tileId, ?_⟩
  simp only [step]
  split
  · rw [applyCompletionEffect_attempts, hideMismatchedTiles_attempts]
  · rfl

/-- Witness for C6: a second reveal bumps `attempts` by one, a selection on
a matched tile is a no-op, and the mismatch-timer expiry leaves `attempts`
unchanged. -/
theorem claim_C6_witness :
    (onTileSelected sessionOneRevealed 2).attempts = sessionOneRevealed.attempts + 1 ∧
    selectionAccepted sessionDone 1 = false ∧
    onTileSelected sessionDone 1 = sessionDone ∧
    (step sessionMismatch GameEvent.timeoutFire).attempts = sessionMismatch.attempts := by
  refine ⟨?_, by decide, ?_, ?_⟩
  · have h := (claim_C6_attempts_once_per_second_reveal sessionOneRevealed 2).1
    rwa [if_pos (by decide)] at h
  · exact (claim_C6_attempts_once_per_second_reveal sessionDone 1).2.1 (by decide)
  · exact (claim_C6_attempts_once_per_second_reveal sessionMismatch 0).2.2

/-- Claim C7: once every tile is matched, a further selection is a no-op —
no tile changes state, `attempts` does not change — and the session clock
does not resume (after the completion effect of the step the timer is not
running). -/
theorem claim_C7_completion_idempotent :
    ∀ (s : GameState) (tileId : Nat), allPairsFound s = true →
      onTileSelected s tileId = s ∧
      (step s (GameEvent.select tileId)).tiles = s.tiles ∧
      (step s (GameEvent.select tileId)).attempts = s.attempts ∧
      (step s (GameEvent.select tileId)).timerRunning = false := by
  intro s tileId h
  have hall : ∀ t ∈ s.tiles, t.state = TileState.matched := by
    have h2 := (Bool.and_eq_true _ _).mp h |>.2
    intro t ht
    have := (List.all_eq_true.mp h2) t ht
    simpa using this
  have hsel : onTileSelected s tileId = s := by
    unfold onTileSelected
    cases hf : findTile s.tiles tileId with
    | none => rfl
    | some tile =>
      have hm := hall tile (List.mem_of_find?_eq_some hf)
      simp [hm]
  refine ⟨hsel, ?_, ?_, ?_⟩ <;>
    simp [step, hsel, applyCompletionEffect, h, stopTimer]

/-- Witness for C7 on a finished two-tile board. -/
theorem claim_C7_witness :
    allPairsFound sessionDone = true ∧
    onTileSelected sessionDone 2 = sessionDone ∧
    (step sessionDone (GameEvent.select 2)).tiles = sessionDone.tiles ∧
    (step sessionDone (GameEvent.select 2)).attempts = sessionDone.attempts ∧
    (step sessionDone (GameEvent.select 2)).timerRunning = false := by
  have h := claim_C7_completion_idempotent sessionDone 2 (by decide)
  exact ⟨by decide, h.1, h.2.1, h.2.2.1, h.2.2.2⟩

/-! ### The Fisher-Yates shuffle is a permutation -/

theorem cons_set_perm (xs : List α) (k : Nat) (a b : α)
    (h : xs.get? k = some b) : (b :: xs.set k a).Perm (a :: xs) := by
  induction xs generalizing k with
  | nil => simp at h
  | cons y ys ih =>
    cases k with
    | zero =>
      simp only [List.get?] at h
      injection h with h
      subst h
      exact List.Perm.swap a y ys
    | succ m =>
      simp only [List.get?] at h
      have ihm := ih m h
      exact (List.Perm.swap y b _).trans
        ((List.Perm.cons y ihm).trans (List.Perm.swap a y _))

theorem set_set_perm (l : List α) (i j : Nat) (a b : α)
    (hi : l.get? i = some a) (hj : l.get? j = some b) :
    ((l.set i b).set j a).Perm l := by
  induction l generalizing i j with
  | nil => simp at hi
  | cons x xs ih =>
    cases i with
    | zero =>
      simp only [List.get?] at hi
      injection hi with hi
      subst hi
      cases j with
      | zero =>
        simp only [List.get?] at hj
        injection hj with hj
        subst hj
        exact List.Perm.refl _
      | succ m =>
        simp only [List.get?] at hj
        exact cons_set_perm xs m x b hj
    | succ k =>
      simp only [List.get?] at hi
      cases j with
      | zero =>
        simp only [List.get?] at hj
        injection hj with hj
        subst hj
        exact cons_set_perm xs k x a hi
      | succ m =>
        simp only [List.get?] at hj
        exact List.Perm.cons x (ih k m hi hj)

theorem listSwap_perm (l : List α) (i j : Nat) : (listSwap l i j).Perm l := by
  unfold listSwap
  split
  · next a b hgi hgj => exact set_set_perm l i j a b hgi hgj
  · exact List.Perm.refl l

theorem shuffleGo_perm (rnd : Nat → Nat) (n : Nat) (l : List α) :
    (shuffleGo rnd n l).Perm l := by
  induction n generalizing l with
  | zero => exact List.Perm.refl l
  | succ i ih =>
    exact (ih _).trans (listSwap_perm l (i + 1) (rnd (i + 1) % (i + 2)))

/-- `shuffle` returns a permutation of its input. -/
theorem shuffle_perm (rnd : Nat → Nat) (items : List α) :
    (shuffle rnd items).Perm items :=
  shuffleGo_perm rnd (items.length - 1) items

/-! ### Deck-builder facts -/

theorem createTilePairs_length (c : Nat) (imgs : List ImageAsset) :
    (createTilePairs c imgs).length = 2 * imgs.length := by
  induction imgs generalizing c with
  | nil => rfl
  | cons i rest ih => simp [createTilePairs, ih]; omega

theorem createTilePairs_count (c : Nat) (imgs : List ImageAsset) (f : String) :
    ((createTilePairs c imgs).map (fun t => t.image.filename)).count f =
      2 * (imgs.map ImageAsset.filename).count f := by
  induction imgs generalizing c with
  | nil => rfl
  | cons i rest ih =>
    simp only [createTilePairs, List.map_cons, List.count_cons, ih (c + 2)]
    by_cases hf : i.filename = f <;> (simp [ImageAsset.filename, hf]; try omega)

theorem createTilePairs_id_gt (c : Nat) (imgs : List ImageAsset) :
    ∀ t ∈ createTilePairs c imgs, c < t.id := by
  induction imgs generalizing c with
  | nil => intro t ht; simp [createTilePairs] at ht
  | cons i rest ih =>
    intro t ht
    simp only [createTilePairs, List.mem_cons] at ht
    rcases ht with rfl | rfl | ht
    · show c < c + 1
      omega
    · show c < c + 2
      omega
    · have := ih (c + 2) t ht
      omega

theorem createTilePairs_ids_nodup (c : Nat) (imgs : List ImageAsset) :
    ((createTilePairs c imgs).map (fun t => t.id)).Nodup := by
  induction imgs generalizing c with
  | nil => simp [createTilePairs]
  | cons i rest ih =>
    simp only [createTilePairs, List.map_cons, List.nodup_cons, List.mem_cons,
      List.mem_map]
    refine ⟨?_, ?_, ih (c + 2)⟩
    · rintro (h | ⟨t, ht, hid⟩)
      · omega
      · have := createTilePairs_id_gt (c + 2) rest t ht
        omega
    · rintro ⟨t, ht, hid⟩
      have := createTilePairs_id_gt (c + 2) rest t ht
      omega

theorem createTilePairs_hidden (c : Nat) (imgs : List ImageAsset) :
    ∀ t ∈ createTilePairs c imgs, t.state = TileState.hidden := by
  induction imgs generalizing c with
  | nil => intro t ht; simp [createTilePairs] at ht
  | cons i rest ih =>
    intro t ht
    simp only [createTilePairs, List.mem_cons] at ht
    rcases ht with rfl | rfl | ht
    · rfl
    · rfl
    · exact ih (c + 2) t ht

/-- The record produced by a successful `setupGame`. -/
theorem setupGame_some (images : List ImageAsset) (p : Nat) (cols : Option Nat)
    (r1 r2 : Nat → Nat) (h : 2 ≤ images.length) :
    setupGame images p cols r1 r2 =
      some
        { tiles := shuffle r2
            (createTilePairs 0 ((shuffle r1 images).take (min p images.length)))
          attempts := 0
          revealedTileIds := []
          pendingHideTimeout := false
          loading := false
          timerRunning := false
          gameStartedSet := false
          columns := clampColumns (cols.getD defaultTileColumns) (min p images.length * 2)
          pairsToFind := min p images.length } := by
  unfold setupGame
  rw [if_neg (by omega)]

/-- Claim C4 (amended form): a session deck built from `k ≥ 2` pairs holds
exactly `2 * min p k` tiles with pairwise-distinct ids, and — provided the
available filenames are pairwise distinct — the multiset of pair keys
(image filenames) contains each selected key exactly twice. -/
theorem claim_C4_deck_shape :
    ∀ (images : List ImageAsset) (p : Nat) (cols : Option Nat) (r1 r2 : Nat → Nat)
      (s : GameState), 2 ≤ images.length →
      setupGame images p cols r1 r2 = some s →
      s.tiles.length = 2 * min p images.length ∧
      (s.tiles.map (fun t => t.id)).Nodup ∧
      ((images.map ImageAsset.filename).Nodup →
        ∀ key ∈ ((shuffle r1 images).take (min p images.length)).map ImageAsset.filename,
          (s.tiles.map (fun t => t.image.filename)).count key = 2) := by
  intro images p cols r1 r2 s hk hsome
  rw [setupGame_some images p cols r1 r2 hk] at hsome
  injection hsome with hsome
  subst hsome
  set selected := (shuffle r1 images).take (min p images.length) with hsel
  have hperm := shuffle_perm r2 (createTilePairs 0 selected)
  refine ⟨?_, ?_, ?_⟩
  · rw [hperm.length_eq, createTilePairs_length]
    have hlen : selected.length = min p images.length := by
      rw [hsel, List.length_take, (shuffle_perm r1 images).length_eq]
      omega
    rw [hlen]
  · exact ((hperm.map (fun t => t.id)).nodup_iff).mpr (createTilePairs_ids_nodup 0 selected)
  · intro hnd key hkey
    have hcount := (hperm.map (fun t => t.image.filename)).count_eq key
    rw [hcount, createTilePairs_count]
    have hselnd : (selected.map ImageAsset.filename).Nodup := by
      have h1 : ((shuffle r1 images).map ImageAsset.filename).Nodup :=
        (((shuffle_perm r1 images).map ImageAsset.filename).nodup_iff).mpr hnd
      have h2 : List.Sublist (selected.map ImageAsset.filename)
          ((shuffle r1 images).map ImageAsset.filename) := by
        rw [hsel, List.map_take]
        exact List.take_sublist _ _
      exact h1.sublist h2
    rw [List.count_eq_one_of_mem hselnd hkey]

/-- Counterexample for C4 as stated: two available pairs that share the
filename "a" (`k = 2 ≥ 2`) yield a deck whose pair-key multiset contains
the selected key "a" four times, not twice. -/
theorem claim_C4_counterexample :
    imagesDup.length = 2 ∧
    (setupGame imagesDup 2 none (fun _ => 0) (fun _ => 0)).map
        (fun s => (s.tiles.map (fun t => t.image.filename)).count "a") = some 4 := by
  constructor
  · rfl
  · decide

/-- Witness for C4 on the two-pair collection with distinct filenames. -/
theorem claim_C4_witness :
    sessionAB.tiles.length = 2 * min 2 imagesAB.length ∧
    (sessionAB.tiles.map (fun t => t.id)).Nodup ∧
    ∀ key ∈ ((shuffle rndId imagesAB).take (min 2 imagesAB.length)).map ImageAsset.filename,
      (sessionAB.tiles.map (fun t => t.image.filename)).count key = 2 := by
  have h := claim_C4_deck_shape imagesAB 2 none rndId rndId sessionAB (by decide) (by decide)
  exact ⟨h.1, h.2.1, h.2.2 (by decide)⟩

/-- Claim C5 (amended form): with at least 2 available pairs, a requested
pair count above the available count is clamped down and a session still
starts, but a requested count below 2 is rejected by the constructor guard
(it navigates back to the start page) and no session starts. -/
theorem claim_C5_clamping :
    ∀ (cid : String) (p : Int) (craw : Option Int) (images : List ImageAsset)
      (r1 r2 : Nat → Nat), 2 ≤ images.length →
      ((2 ≤ p → ∃ s, startSession (some cid) (some p) craw images r1 r2 = some s ∧
          s.pairsToFind = min p.toNat images.length) ∧
       (p < 2 → startSession (some cid) (some p) craw images r1 r2 = none)) := by
  intro cid p craw images r1 r2 hk
  constructor
  · intro hp
    have h0 : (0 : Int) ≤ p := by omega
    have h2 : ¬ p.toNat < 2 := by omega
    have hparse : parsePositiveInt (some p) = some p.toNat := by
      simp [parsePositiveInt, h0]
    simp only [startSession, constructorGuard, hparse, if_neg h2]
    rw [setupGame_some images p.toNat (parsePositiveInt craw) r1 r2 hk]
    exact ⟨_, rfl, rfl⟩
  · intro hp
    by_cases h0 : (0 : Int) ≤ p
    · have h2 : p.toNat < 2 := by omega
      have hparse : parsePositiveInt (some p) = some p.toNat := by
        simp [parsePositiveInt, h0]
      simp [startSession, constructorGuard, hparse, h2]
    · have hparse : parsePositiveInt (some p) = none := by
        simp [parsePositiveInt, h0]
      simp [startSession, constructorGuard, hparse]

/-- Counterexample for C5 as stated: a requested pair count of 1 (below 2)
with two available pairs is rejected — the constructor navigates home and
no session is started — instead of being clamped into range. -/
theorem claim_C5_counterexample :
    2 ≤ imagesAB.length ∧
    startSession (some "c") (some 1) none imagesAB rndId rndId = none := by
  exact ⟨by decide, by decide⟩

/-- Witness for C5: requesting 5 of 2 available pairs starts a session
clamped to 2 pairs; requesting 1 pair starts none. -/
theorem claim_C5_witness :
    (∃ s, startSession (some "c") (some 5) none imagesAB rndId rndId = some s ∧
        s.pairsToFind = min (5 : Int).toNat imagesAB.length) ∧
    startSession (some "c") (some 1) none imagesAB rndId rndId = none := by
  have h5 := claim_C5_clamping "c" 5 none imagesAB rndId rndId (by decide)
  have h1 := claim_C5_clamping "c" 1 none imagesAB rndId rndId (by decide)
  exact ⟨h5.1 (by decide), h1.2 (by decide)⟩

/-! ### Match / mismatch round trip and stability of 'matched' -/

/-- On mismatching filenames, `evaluateRevealedTiles` only schedules the
hide timeout. -/
theorem evaluateRevealedTiles_mismatch (s : GameState) (i j : Nat) (ti tj : GameTile)
    (hrev : s.revealedTileIds = [i, j])
    (hfi : findTile s.tiles i = some ti) (hfj : findTile s.tiles j = some tj)
    (hne : ti.image.filename ≠ tj.image.filename) :
    evaluateRevealedTiles s = { s with pendingHideTimeout := true } := by
  unfold evaluateRevealedTiles
  rw [hrev]
  simp only [hfi, hfj]
  rw [if_neg (by simpa using hne)]

/-- On matching filenames, `evaluateRevealedTiles` marks both tiles
matched and clears the selection. -/
theorem evaluateRevealedTiles_match (s : GameState) (i j : Nat) (ti tj : GameTile)
    (hrev : s.revealedTileIds = [i, j])
    (hfi : findTile s.tiles i = some ti) (hfj : findTile s.tiles j = some tj)
    (heq : ti.image.filename = tj.image.filename) :
    evaluateRevealedTiles s =
      { setTileState (setTileState s i TileState.matched) j TileState.matched with
        revealedTileIds := [] } := by
  unfold evaluateRevealedTiles
  rw [hrev]
  simp only [hfi, hfj]
  rw [if_pos (by simpa using heq)]

/-- The tile list produced by `hideMismatchedTiles`, in closed form (for an
empty revealed list the map is the identity). -/
theorem hideMismatchedTiles_tiles (s : GameState) :
    (hideMismatchedTiles s).tiles = s.tiles.map (fun tile =>
      if s.revealedTileIds.contains tile.id && tile.state == TileState.visible
      then { tile with state := TileState.hidden } else tile) := by
  cases hr : s.revealedTileIds with
  | nil => simp [hideMismatchedTiles, hr]
  | cons a as => simp [hideMismatchedTiles, hr]

/-- `onTileSelected` on an accepted selection, unfolded. -/
theorem onTileSelected_accepted_eq (s : GameState) (tileId : Nat) (tile : GameTile)
    (hf : findTile s.tiles tileId = some tile) (hhid : tile.state = TileState.hidden)
    (hload : s.loading = false) :
    onTileSelected s tileId =
      (let s1 := if s.pendingHideTimeout then hideMismatchedTiles s else s
       let s2 := startTimer s1
       let s3 := setTileState s2 tileId TileState.visible
       let s4 := { s3 with revealedTileIds := s3.revealedTileIds ++ [tileId] }
       if s4.revealedTileIds.length == 2 then
         evaluateRevealedTiles { s4 with attempts := s4.attempts + 1 }
       else s4) := by
  unfold onTileSelected
  simp only [hf]
  rw [if_neg (by simp [hhid, hload])]

/-- A tile already 'matched' is untouched by `hideMismatchedTiles`. -/
theorem matched_mem_hide (s : GameState) (t : GameTile)
    (hmem : t ∈ s.tiles) (ht : t.state = TileState.matched) :
    t ∈ (hideMismatchedTiles s).tiles := by
  rw [hideMismatchedTiles_tiles]
  exact List.mem_map.mpr ⟨t, hmem, by simp [ht]⟩

/-- A tile whose id differs from the target is untouched by
`setTileState`. -/
theorem mem_setTileState_of_ne (s : GameState) (t : GameTile) (tileId : Nat)
    (st : TileState) (hid : t.id ≠ tileId) (hmem : t ∈ s.tiles) :
    t ∈ (setTileState s tileId st).tiles := by
  unfold setTileState
  exact List.mem_map.mpr ⟨t, hmem, by simp [hid]⟩

/-- Setting a tile 'matched' fixes every tile that is already matched. -/
theorem mem_setTileState_matched (s : GameState) (t : GameTile) (tileId : Nat)
    (ht : t.state = TileState.matched) (hmem : t ∈ s.tiles) :
    t ∈ (setTileState s tileId TileState.matched).tiles := by
  unfold setTileState
  refine List.mem_map.mpr ⟨t, hmem, ?_⟩
  cases t with
  | mk id image state =>
    cases ht
    simp

/-- A matched tile survives `evaluateRevealedTiles` unchanged. -/
theorem matched_mem_evaluate (s : GameState) (t : GameTile)
    (hmem : t ∈ s.tiles) (ht : t.state = TileState.matched) :
    t ∈ (evaluateRevealedTiles s).tiles := by
  unfold evaluateRevealedTiles
  repeat' split
  all_goals
    first
      | exact hmem
      | exact mem_setTileState_matched _ t _ ht (mem_setTileState_matched _ t _ ht hmem)

/-- A matched tile survives `onTileSelected` unchanged, provided tile ids
are pairwise distinct (as they are in every session deck). -/
theorem matched_mem_onTileSelected (s : GameState) (tileId : Nat) (t : GameTile)
    (hnd : (s.tiles.map (fun t => t.id)).Nodup)
    (hmem : t ∈ s.tiles) (ht : t.state = TileState.matched) :
    t ∈ (onTileSelected s tileId).tiles := by
  by_cases hacc : selectionAccepted s tileId = true
  case neg =>
    rw [onTileSelected_not_accepted s tileId (by simpa using hacc)]
    exact hmem
  case pos =>
    unfold selectionAccepted at hacc
    obtain ⟨tile, hf, hhid, hload⟩ : ∃ tile, findTile s.tiles tileId = some tile ∧
        tile.state = TileState.hidden ∧ s.loading = false := by
      cases hf : findTile s.tiles tileId with
      | none => rw [hf] at hacc; simp at hacc
      | some tile =>
        rw [hf] at hacc
        simp only [Bool.and_eq_true, beq_iff_eq, Bool.not_eq_eq_eq_not, Bool.not_true] at hacc
        exact ⟨tile, rfl, hacc.1, hacc.2⟩
    rw [onTileSelected_accepted_eq s tileId tile hf hhid hload]
    have htid : tile.id = tileId := by
      have := List.find?_some hf
      simpa using this
    have hne : t.id ≠ tileId := by
      intro hc
      have hteq : t = tile :=
        List.inj_on_of_nodup_map hnd hmem (List.mem_of_find?_eq_some hf) (by rw [hc, htid])
      rw [hteq, hhid] at ht
      exact absurd ht (by simp)
    by_cases hp : s.pendingHideTimeout = true
    · simp only [hp, if_true]
      have hmem3 : t ∈ (setTileState (startTimer (hideMismatchedTiles s))
          tileId TileState.visible).tiles :=
        mem_setTileState_of_ne _ t tileId TileState.visible hne
          (by rw [startTimer_tiles]; exact matched_mem_hide s t hmem ht)
      split
      · exact matched_mem_evaluate _ t hmem3 ht
      · exact hmem3
    · simp only [Bool.not_eq_true] at hp
      simp only [hp, Bool.false_eq_true, if_false]
      have hmem3 : t ∈ (setTileState (startTimer s) tileId TileState.visible).tiles :=
        mem_setTileState_of_ne _ t tileId TileState.visible hne
          (by rw [startTimer_tiles]; exact hmem)
      split
      · exact matched_mem_evaluate _ t hmem3 ht
      · exact hmem3

/-- Claim C3: for two revealed tiles, (1) differing pair keys schedule the
mismatch timeout and, when it fires, every listed tile still 'visible'
returns to 'hidden' and the revealed list is cleared; (2) equal pair keys
mark both tiles 'matched' immediately and clear the revealed list; and
(3) no selection or timer event ever moves a 'matched' tile out of
'matched' (on decks with pairwise-distinct tile ids). -/
theorem claim_C3_match_mismatch_roundtrip :
    (∀ (s : GameState) (i j : Nat) (ti tj : GameTile),
      s.revealedTileIds = [i, j] →
      findTile s.tiles i = some ti → findTile s.tiles j = some tj →
      ti.image.filename ≠ tj.image.filename →
      (evaluateRevealedTiles s).pendingHideTimeout = true ∧
      (evaluateRevealedTiles s).tiles = s.tiles ∧
      (hideMismatchedTiles (evaluateRevealedTiles s)).revealedTileIds = [] ∧
      (hideMismatchedTiles (evaluateRevealedTiles s)).tiles =
        s.tiles.map (fun t =>
          if (t.id = i ∨ t.id = j) ∧ t.state = TileState.visible
          then { t with state := TileState.hidden } else t)) ∧
    (∀ (s : GameState) (i j : Nat) (ti tj : GameTile),
      s.revealedTileIds = [i, j] →
      findTile s.tiles i = some ti → findTile s.tiles j = some tj →
      ti.image.filename = tj.image.filename →
      (evaluateRevealedTiles s).revealedTileIds = [] ∧
      (evaluateRevealedTiles s).tiles =
        s.tiles.map (fun t =>
          if t.id = i ∨ t.id = j
          then { t with state := TileState.matched } else t)) ∧
    (∀ (s : GameState) (ev : GameEvent) (t : GameTile),
      (s.tiles.map (fun t => t.id)).Nodup →
      t ∈ s.tiles → t.state = TileState.matched → t ∈ (step s ev).tiles) := by
  refine ⟨?_, ?_, ?_⟩
  · intro s i j ti tj hrev hfi hfj hne
    have heval := evaluateRevealedTiles_mismatch s i j ti tj hrev hfi hfj hne
    rw [heval]
    refine ⟨rfl, rfl, hideMismatchedTiles_revealedTileIds _, ?_⟩
    rw [hideMismatchedTiles_tiles]
    show s.tiles.map _ = s.tiles.map _
    refine List.map_congr_left ?_
    intro t _
    show (if s.revealedTileIds.contains t.id && t.state == TileState.visible
          then _ else _) = _
    rw [hrev]
    by_cases hi : t.id = i <;> by_cases hj : t.id = j <;>
      by_cases hst : t.state = TileState.visible <;>
      simp [List.contains, hi, hj, hst]
  · intro s i j ti tj hrev hfi hfj heq
    have heval := evaluateRevealedTiles_match s i j ti tj hrev hfi hfj heq
    rw [heval]
    refine ⟨rfl, ?_⟩
    show (setTileState (setTileState s i TileState.matched) j TileState.matched).tiles = _
    unfold setTileState
    rw [List.map_map]
    refine List.map_congr_left ?_
    intro t _
    by_cases hi : t.id = i <;> by_cases hj : t.id = j
    · simp [Function.comp, hi, hj]
    · simp [Function.comp, hi, hj]
    · have hji : ¬ j = i := fun hc => hi (by rw [hj, hc])
      simp [Function.comp, hi, hj, hji]
    · simp [Function.comp, hi, hj]
  · intro s ev t hnd hmem ht
    cases ev with
    | select tileId =>
      show t ∈ (applyCompletionEffect (onTileSelected s tileId)).tiles
      rw [applyCompletionEffect_tiles]
      exact matched_mem_onTileSelected s tileId t hnd hmem ht
    | timeoutFire =>
      show t ∈ (if s.pendingHideTimeout then
          applyCompletionEffect (hideMismatchedTiles s) else s).tiles
      split
      · rw [applyCompletionEffect_tiles]
        exact matched_mem_hide s t hmem ht
      · exact hmem

/-- Witness for C3: the mismatched pair (ids 1 and 3) of `sessionMismatch`
is hidden again after the timeout; the matching pair (ids 1 and 2) of
`sessionMatchReady` goes matched; a matched tile of `sessionDone` survives
a selection event. -/
theorem claim_C3_witness :
    ((evaluateRevealedTiles sessionMismatch).pendingHideTimeout = true ∧
     (evaluateRevealedTiles sessionMismatch).tiles = sessionMismatch.tiles ∧
     (hideMismatchedTiles (evaluateRevealedTiles sessionMismatch)).revealedTileIds = [] ∧
     (hideMismatchedTiles (evaluateRevealedTiles sessionMismatch)).tiles =
       sessionMismatch.tiles.map (fun t =>
         if (t.id = 1 ∨ t.id = 3) ∧ t.state = TileState.visible
         then { t with state := TileState.hidden } else t)) ∧
    ((evaluateRevealedTiles sessionMatchReady).revealedTileIds = [] ∧
     (evaluateRevealedTiles sessionMatchReady).tiles =
       sessionMatchReady.tiles.map (fun t =>
         if t.id = 1 ∨ t.id = 2
         then { t with state := TileState.matched } else t)) ∧
    ({ id := 1, image := ⟨"a", "u"⟩, state := TileState.matched } : GameTile) ∈
      (step sessionDone (GameEvent.select 2)).tiles := by
  refine ⟨?_, ?_, ?_⟩
  · exact claim_C3_match_mismatch_roundtrip.1 sessionMismatch 1 3
      ⟨1, ⟨"a", "u"⟩, TileState.visible⟩ ⟨3, ⟨"b", "v"⟩, TileState.visible⟩
      (by decide) (by decide) (by decide) (by decide)
  · exact claim_C3_match_mismatch_roundtrip.2.1 sessionMatchReady 1 2
      ⟨1, ⟨"a", "u"⟩, TileState.visible⟩ ⟨2, ⟨"a", "u"⟩, TileState.visible⟩
      (by decide) (by decide) (by decide) (by decide)
  · exact claim_C3_match_mismatch_roundtrip.2.2 sessionDone (GameEvent.select 2)
      ⟨1, ⟨"a", "u"⟩, TileState.matched⟩ (by decide) (by decide) (by decide)

/-! ### Frame effect: play events only touch tile states -/

theorem tileKey_map_hide (s : GameState) :
    (hideMismatchedTiles s).tiles.map tileKey = s.tiles.map tileKey := by
  rw [hideMismatchedTiles_tiles, List.map_map]
  refine List.map_congr_left ?_
  intro t _
  show tileKey _ = tileKey t
  unfold tileKey
  dsimp only
  split <;> simp

theorem tileKey_map_setTileState (s : GameState) (tileId : Nat) (st : TileState) :
    (setTileState s tileId st).tiles.map tileKey = s.tiles.map tileKey := by
  unfold setTileState
  rw [List.map_map]
  refine List.map_congr_left ?_
  intro t _
  show tileKey _ = tileKey t
  unfold tileKey
  dsimp only
  split <;> simp

theorem tileKey_map_evaluate (s : GameState) :
    (evaluateRevealedTiles s).tiles.map tileKey = s.tiles.map tileKey := by
  unfold evaluateRevealedTiles
  repeat' split
  all_goals
    first
      | rfl
      | exact (tileKey_map_setTileState _ _ _).trans (tileKey_map_setTileState _ _ _)

theorem tileKey_map_onTileSelected (s : GameState) (tileId : Nat) :
    (onTileSelected s tileId).tiles.map tileKey = s.tiles.map tileKey := by
  by_cases hacc : selectionAccepted s tileId = true
  case neg =>
    rw [onTileSelected_not_accepted s tileId (by simpa using hacc)]
  case pos =>
    unfold selectionAccepted at hacc
    obtain ⟨tile, hf, hhid, hload⟩ : ∃ tile, findTile s.tiles tileId = some tile ∧
        tile.state = TileState.hidden ∧ s.loading = false := by
      cases hf : findTile s.tiles tileId with
      | none => rw [hf] at hacc; simp at hacc
      | some tile =>
        rw [hf] at hacc
        simp only [Bool.and_eq_true, beq_iff_eq, Bool.not_eq_eq_eq_not, Bool.not_true] at hacc
        exact ⟨tile, rfl, hacc.1, hacc.2⟩
    rw [onTileSelected_accepted_eq s tileId tile hf hhid hload]
    by_cases hp : s.pendingHideTimeout = true
    · simp only [hp, if_true]
      split
      · exact (tileKey_map_evaluate _).trans
          ((tileKey_map_setTileState _ _ _).trans
            (by rw [startTimer_tiles]; exact tileKey_map_hide s))
      · exact (tileKey_map_setTileState _ _ _).trans
          (by rw [startTimer_tiles]; exact tileKey_map_hide s)
    · simp only [Bool.not_eq_true] at hp
      simp only [hp, Bool.false_eq_true, if_false]
      split
      · exact (tileKey_map_evaluate _).trans
          ((tileKey_map_setTileState _ _ _).trans (by rw [startTimer_tiles]))
      · exact (tileKey_map_setTileState _ _ _).trans (by rw [startTimer_tiles])

theorem tileKey_map_step (s : GameState) (ev : GameEvent) :
    (step s ev).tiles.map tileKey = s.tiles.map tileKey := by
  cases ev with
  | select tileId =>
    show (applyCompletionEffect (onTileSelected s tileId)).tiles.map tileKey = _
    rw [applyCompletionEffect_tiles]
    exact tileKey_map_onTileSelected s tileId
  | timeoutFire =>
    show (if s.pendingHideTimeout then
        applyCompletionEffect (hideMismatchedTiles s) else s).tiles.map tileKey = _
    split
    · rw [applyCompletionEffect_tiles]
      exact tileKey_map_hide s
    · rfl

/-- Claim C10: every sequence of play events (selections, match
resolutions, mismatch-timeout expiries) changes only the `state` field of
tiles: the tile list keeps its length and order, and every tile keeps its
id and image payload. -/
theorem claim_C10_frame_effect :
    ∀ (s : GameState) (events : List GameEvent),
      (run s events).tiles.map tileKey = s.tiles.map tileKey ∧
      (run s events).tiles.length = s.tiles.length := by
  intro s events
  have h : (run s events).tiles.map tileKey = s.tiles.map tileKey := by
    induction events generalizing s with
    | nil => rfl
    | cons e rest ih => exact (ih (step s e)).trans (tileKey_map_step s e)
  refine ⟨h, ?_⟩
  have := congrArg List.length h
  simpa using this

/-! ### Layout engine bounds and degenerate inputs -/

/-- The `rows` signal computes the ceiling of `tileCount / columnCount`. -/
theorem rowsFor_eq (n c : Nat) (hc : 0 < c) : rowsFor n c = (n + c - 1) / c := by
  unfold rowsFor
  by_cases hn : n = 0
  · subst hn
    rw [if_pos (by simp)]
    rw [Nat.div_eq_of_lt (by omega)]
  · rw [if_neg (by simp [hn]; omega)]
    set q := (n + c - 1) / c with hq
    have hq0 : q ≠ 0 := by
      rw [hq]
      have : 1 ≤ (n + c - 1) / c := by
        rw [Nat.le_div_iff_mul_le hc]
        omega
      omega
    have h1 : q * c ≤ n + c - 1 := Nat.div_mul_le_self _ _
    have h2 : n + c - 1 < (q + 1) * c := by
      rw [← Nat.div_lt_iff_lt_mul hc]
      omega
    have e1 : (q + 1) * c = q * c + c := by ring
    have e2 : (q - 1) * c = q * c - c := by
      rw [Nat.sub_mul, Nat.one_mul]
    have hle : n ≤ q * c := by omega
    have hlt : (q - 1) * c < n := by omega
    rw [Nat.ceil_eq_iff hq0]
    constructor
    · rw [lt_div_iff₀ (by exact_mod_cast hc)]
      exact_mod_cast hlt
    · rw [div_le_iff₀ (by exact_mod_cast hc)]
      exact_mod_cast hle

/-- Whenever the width-constrained size is positive, the published tile
size never exceeds it. -/
theorem updateBoardLayout_le_width (w h : ℚ) (c r : Nat) (ts : ℚ)
    (hts : updateBoardLayout w h c r = some ts) (hpos : 0 < widthLimited w c) :
    ts ≤ widthLimited w c := by
  unfold updateBoardLayout at hts
  unfold widthLimited at hpos ⊢
  dsimp only at hts
  split_ifs at hts
  all_goals
    first
      | exact Option.noConfusion hts
      | (injection hts with hts; rw [← hts]; exact min_le_right _ _)

/-- When the width-constrained size is not positive, the layout falls back
to the minimum tile size. -/
theorem updateBoardLayout_fallback (w h : ℚ) (c r : Nat)
    (hc : c ≠ 0) (hr : r ≠ 0) (hw : w ≠ 0) (hle : widthLimited w c ≤ 0) :
    updateBoardLayout w h c r = some minTileSizePx := by
  unfold widthLimited at hle
  unfold updateBoardLayout
  dsimp only
  rw [if_neg (by simp [hc, hr])]
  rw [if_neg hw]
  have hnotpos : ¬ 0 < (w - resolveGap c * (max (c - 1) 0 : Nat)) / (c : ℚ) :=
    not_lt.mpr hle
  have ht1 : (if 0 < h then
      (if 0 < (h - resolveGap c * (max (r - 1) 0 : Nat)) / (r : ℚ) then
        min ((w - resolveGap c * (max (c - 1) 0 : Nat)) / (c : ℚ))
          ((h - resolveGap c * (max (r - 1) 0 : Nat)) / (r : ℚ))
       else (w - resolveGap c * (max (c - 1) 0 : Nat)) / (c : ℚ))
      else (w - resolveGap c * (max (c - 1) 0 : Nat)) / (c : ℚ)) ≤ 0 := by
    split_ifs with h1 h2
    · exact le_trans (min_le_left _ _) hle
    · exact hle
    · exact hle
  rw [if_pos ht1, if_neg hnotpos, if_neg hnotpos, max_self]
  rw [if_neg (by norm_num [minTileSizePx])]

/-- The gap for a 4-column board is the base gap of 16px. -/
theorem resolveGap_four : resolveGap 4 = 16 := by
  norm_num [resolveGap, jsRound, Int.floor_eq_iff]

/-- Claim C8 (amended form): `rows = ceil(n / c)` for `c > 0`, and the
published square tile size never exceeds the width-constrained size
`(availableWidth - gap*(c-1)) / c` whenever that size is positive — in
particular for 12 tiles in 4 columns on an 800-wide viewport, `rows = 3`
and any published size is at most `(800 - gap*3) / 4`. -/
theorem claim_C8_layout_bounds :
    (∀ (n c : Nat), 0 < c → rowsFor n c = (n + c - 1) / c) ∧
    (∀ (w h : ℚ) (c r : Nat) (ts : ℚ),
      updateBoardLayout w h c r = some ts →
      0 < widthLimited w c → ts ≤ widthLimited w c) ∧
    rowsFor 12 4 = 3 ∧
    (∀ (h ts : ℚ), updateBoardLayout 800 h 4 3 = some ts →
      ts ≤ (800 - resolveGap 4 * 3) / 4) := by
  refine ⟨rowsFor_eq, updateBoardLayout_le_width, ?_, ?_⟩
  · rw [rowsFor_eq 12 4 (by omega)]
  · intro h ts hts
    have hwl : widthLimited 800 4 = (800 - resolveGap 4 * 3) / 4 := by
      unfold widthLimited
      norm_num
    have := updateBoardLayout_le_width 800 h 4 3 ts hts
      (by rw [hwl, resolveGap_four]; norm_num)
    rwa [hwl] at this

/-- Counterexample for C8 as stated: on a 10px-wide viewport with 4
columns the width-constrained size is negative, yet the published tile
size is the 32px fallback minimum — it exceeds the width-constrained
size. -/
theorem claim_C8_counterexample :
    updateBoardLayout 10 600 4 3 = some 32 ∧ ¬ (32 : ℚ) ≤ widthLimited 10 4 := by
  constructor
  · have h32 : (32 : ℚ) = minTileSizePx := by norm_num [minTileSizePx]
    rw [h32]
    refine updateBoardLayout_fallback 10 600 4 3 (by omega) (by omega) (by norm_num) ?_
    unfold widthLimited
    rw [resolveGap_four]
    norm_num
  · unfold widthLimited
    rw [resolveGap_four]
    norm_num

/-- Witness for C8 at the spec's 12-tile, 4-column, 800-wide instance. -/
theorem claim_C8_witness :
    rowsFor 12 4 = (12 + 4 - 1) / 4 ∧
    (188 : ℚ) ≤ widthLimited 800 4 ∧
    (188 : ℚ) ≤ (800 - resolveGap 4 * 3) / 4 := by
  have hwl : widthLimited 800 4 = 188 := by
    unfold widthLimited
    rw [resolveGap_four]
    norm_num
  have hup : updateBoardLayout 800 600 4 3 = some 188 := by
    have hg := resolveGap_four
    norm_num [updateBoardLayout, hg, minTileSizePx, min_def, max_def]
  refine ⟨claim_C8_layout_bounds.1 12 4 (by omega), ?_, ?_⟩
  · have := claim_C8_layout_bounds.2.1 800 600 4 3 188 hup (by rw [hwl]; norm_num)
    exact this
  · exact claim_C8_layout_bounds.2.2.2 600 188 hup

/-- Claim C9 (amended form): the layout computation never fails on
degenerate inputs — a zero column count or zero row count (in particular a
zero tile count) makes it return early publishing no geometry, and a
non-positive width-constrained size makes it publish the safe fallback
minimum tile size. -/
theorem claim_C9_degenerate_layout :
    (∀ (w h : ℚ) (r : Nat), updateBoardLayout w h 0 r = none) ∧
    (∀ (w h : ℚ) (c : Nat), updateBoardLayout w h c 0 = none) ∧
    (∀ (c : Nat), rowsFor 0 c = 0) ∧
    (∀ (w h : ℚ) (c r : Nat), c ≠ 0 → r ≠ 0 → w ≠ 0 →
      widthLimited w c ≤ 0 → updateBoardLayout w h c r = some minTileSizePx) := by
  refine ⟨?_, ?_, ?_, updateBoardLayout_fallback⟩
  · intro w h r
    simp [updateBoardLayout]
  · intro w h c
    simp [updateBoardLayout]
  · intro c
    simp [rowsFor]

/-- Counterexample for C9 as stated: a zero column count does not yield
the fallback minimum tile size — the layout update returns early and
publishes nothing at all. -/
theorem claim_C9_counterexample :
    updateBoardLayout 800 600 0 3 = none ∧
    (none : Option ℚ) ≠ some minTileSizePx := by
  constructor
  · simp [updateBoardLayout]
  · simp

/-- Witness for C9: early return on zero columns and zero rows, zero rows
for an empty board, and the 32px fallback on a 5px-wide viewport. -/
theorem claim_C9_witness :
    updateBoardLayout 500 600 0 5 = none ∧
    updateBoardLayout 500 600 5 0 = none ∧
    rowsFor 0 7 = 0 ∧
    updateBoardLayout 5 600 4 3 = some minTileSizePx := by
  refine ⟨claim_C9_degenerate_layout.1 500 600 5, claim_C9_degenerate_layout.2.1 500 600 5,
    claim_C9_degenerate_layout.2.2.1 7, ?_⟩
  refine claim_C9_degenerate_layout.2.2.2 5 600 4 3 (by omega) (by omega) (by norm_num) ?_
  unfold widthLimited
  rw [resolveGap_four]
  norm_num

/-! ### The reveal invariant (at most two tiles visible) -/

theorem setTileState_revealedTileIds (s : GameState) (tileId : Nat) (st : TileState) :
    (setTileState s tileId st).revealedTileIds = s.revealedTileIds := rfl

theorem setTileState_pending (s : GameState) (tileId : Nat) (st : TileState) :
    (setTileState s tileId st).pendingHideTimeout = s.pendingHideTimeout := rfl

theorem map_tileId_of_preserving (l : List GameTile) (f : GameTile → GameTile)
    (hf : ∀ t, (f t).id = t.id) :
    (l.map f).map (fun t => t.id) = l.map (fun t => t.id) := by
  rw [List.map_map]
  exact List.map_congr_left fun t _ => hf t

theorem find_of_exists (l : List GameTile) (i : Nat)
    (h : ∃ t ∈ l, t.id = i) :
    ∃ t, findTile l i = some t ∧ t.id = i ∧ t ∈ l := by
  obtain ⟨u, hu, hui⟩ := h
  have hsome : (l.find? (fun item => item.id == i)).isSome := by
    rw [List.find?_isSome]
    exact ⟨u, hu, by simp [hui]⟩
  obtain ⟨t, ht⟩ := Option.isSome_iff_exists.mp hsome
  refine ⟨t, ht, ?_, List.mem_of_find?_eq_some ht⟩
  have := List.find?_some ht
  simpa using this

/-- Invariance of `Inv` under operations that keep the three fields it
reads. -/
theorem inv_of_fields_eq (s s' : GameState) (ht : s'.tiles = s.tiles)
    (hr : s'.revealedTileIds = s.revealedTileIds)
    (hp : s'.pendingHideTimeout = s.pendingHideTimeout) :
    Inv s → Inv s' := by
  unfold Inv visibleIffRevealed
  rw [ht, hr, hp]
  exact id

/-- After a (forced or timed-out) `hideMismatchedTiles` no tile is
visible. -/
theorem hide_no_visible (s : GameState) (hinv : Inv s) :
    ∀ t ∈ (hideMismatchedTiles s).tiles, t.state ≠ TileState.visible := by
  obtain ⟨-, -, -, -, hvis, -⟩ := hinv
  intro t' ht'
  rw [hideMismatchedTiles_tiles] at ht'
  obtain ⟨t, htmem, hft⟩ := List.mem_map.mp ht'
  by_cases hc : (s.revealedTileIds.contains t.id && t.state == TileState.visible) = true
  · rw [if_pos hc] at hft
    rw [← hft]
    simp
  · rw [if_neg hc] at hft
    subst hft
    intro hvisible
    have hid : t.id ∈ s.revealedTileIds := (hvis t htmem).mp hvisible
    apply hc
    simp [hvisible, List.contains_iff_exists_mem_beq]
    exact hid

theorem inv_hide (s : GameState) (hinv : Inv s) : Inv (hideMismatchedTiles s) := by
  have hnov := hide_no_visible s hinv
  obtain ⟨hnd, -, -, -, -, -⟩ := hinv
  refine ⟨?_, ?_, ?_, ?_, ?_, ?_⟩
  · rw [hideMismatchedTiles_tiles]
    rw [map_tileId_of_preserving]
    · exact hnd
    · intro t
      split <;> rfl
  · rw [hideMismatchedTiles_revealedTileIds]
    exact List.nodup_nil
  · rw [hideMismatchedTiles_revealedTileIds]
    simp
  · rw [hideMismatchedTiles_revealedTileIds]
    simp
  · intro t ht
    rw [hideMismatchedTiles_revealedTileIds]
    simp only [List.not_mem_nil, iff_false]
    exact hnov t ht
  · rw [hideMismatchedTiles_revealedTileIds, hideMismatchedTiles_pending]
    simp



theorem hideMismatchedTiles_ids (s : GameState) :
    (hideMismatchedTiles s).tiles.map (fun t => t.id) = s.tiles.map (fun t => t.id) := by
  rw [hideMismatchedTiles_tiles]
  exact map_tileId_of_preserving _ _ (fun t => by split <;> rfl)

theorem setTileState_ids (s : GameState) (tileId : Nat) (st : TileState) :
    (setTileState s tileId st).tiles.map (fun t => t.id) = s.tiles.map (fun t => t.id) := by
  unfold setTileState
  exact map_tileId_of_preserving _ _ (fun t => by split <;> rfl)

theorem mem_hide_of_not_visible (s : GameState) (t : GameTile)
    (hmem : t ∈ s.tiles) (ht : t.state ≠ TileState.visible) :
    t ∈ (hideMismatchedTiles s).tiles := by
  rw [hideMismatchedTiles_tiles]
  refine List.mem_map.mpr ⟨t, hmem, ?_⟩
  rw [if_neg]
  simp [ht]

theorem exists_id_setTileState (s : GameState) (tileId i : Nat) (st : TileState)
    (h : ∃ t ∈ s.tiles, t.id = i) :
    ∃ t ∈ (setTileState s tileId st).tiles, t.id = i := by
  obtain ⟨u, hu, hui⟩ := h
  unfold setTileState
  refine ⟨_, List.mem_map.mpr ⟨u, hu, rfl⟩, ?_⟩
  split <;> simpa using hui

theorem setVisible_vis_char (B : GameState) (tid : Nat) (P : Nat → Prop)
    (hvisB : ∀ t ∈ B.tiles, (t.state = TileState.visible ↔ P t.id)) :
    ∀ t ∈ (setTileState B tid TileState.visible).tiles,
      (t.state = TileState.visible ↔ (P t.id ∨ t.id = tid)) := by
  intro u' hu'
  unfold setTileState at hu'
  obtain ⟨u, hu, huf⟩ := List.mem_map.mp hu'
  by_cases hc : (u.id == tid) = true
  · rw [if_pos hc] at huf
    subst huf
    have : u.id = tid := by simpa using hc
    simp [this]
  · rw [if_neg hc] at huf
    subst huf
    have hne : u.id ≠ tid := by simpa using hc
    rw [hvisB u hu]
    constructor
    · exact Or.inl
    · rintro (h | h)
      · exact h
      · exact absurd h hne

theorem inv_single_reveal (D : GameState) (tid : Nat)
    (hrev : D.revealedTileIds = [tid])
    (hpend : D.pendingHideTimeout = false)
    (hnd : (D.tiles.map (fun t => t.id)).Nodup)
    (hex : ∃ t ∈ D.tiles, t.id = tid)
    (hvis : ∀ t ∈ D.tiles, (t.state = TileState.visible ↔ t.id = tid)) :
    Inv D := by
  refine ⟨hnd, by rw [hrev]; simp, by rw [hrev]; simp, ?_, ?_, ?_⟩
  · intro i hi
    rw [hrev] at hi
    simp only [List.mem_singleton] at hi
    subst hi
    exact hex
  · intro t ht
    rw [hrev]
    rw [hvis t ht]
    simp
  · rw [hpend, hrev]
    simp

theorem setMatched_not_visible (s : GameState) (tid : Nat)
    (h : ∀ t ∈ s.tiles, t.state = TileState.visible → t.id = tid) :
    ∀ t ∈ (setTileState s tid TileState.matched).tiles, t.state ≠ TileState.visible := by
  intro u' hu'
  unfold setTileState at hu'
  obtain ⟨u, hu, huf⟩ := List.mem_map.mp hu'
  by_cases hc : (u.id == tid) = true
  · rw [if_pos hc] at huf
    rw [← huf]
    simp
  · rw [if_neg hc] at huf
    subst huf
    intro hv
    exact absurd (h u hu hv) (by simpa using hc)

theorem inv_evaluate_pair (C : GameState) (i1 tid : Nat)
    (hrev : C.revealedTileIds = [i1, tid])
    (hpend : C.pendingHideTimeout = false)
    (hne : tid ≠ i1)
    (hnd : (C.tiles.map (fun t => t.id)).Nodup)
    (hex1 : ∃ t ∈ C.tiles, t.id = i1)
    (hex2 : ∃ t ∈ C.tiles, t.id = tid)
    (hvis : ∀ t ∈ C.tiles, (t.state = TileState.visible ↔ (t.id = i1 ∨ t.id = tid))) :
    Inv (evaluateRevealedTiles C) := by
  obtain ⟨t1, hf1, ht1id, ht1mem⟩ := find_of_exists C.tiles i1 hex1
  obtain ⟨t2, hf2, ht2id, ht2mem⟩ := find_of_exists C.tiles tid hex2
  unfold evaluateRevealedTiles
  rw [hrev]
  simp only [hf1, hf2]
  by_cases hfn : (t1.image.filename == t2.image.filename) = true
  · rw [if_pos hfn]
    refine ⟨?_, by simp, by simp, by simp, ?_, ?_⟩
    · show ((setTileState (setTileState C i1 TileState.matched) tid TileState.matched).tiles.map
        (fun t => t.id)).Nodup
      rw [setTileState_ids, setTileState_ids]
      exact hnd
    · intro t ht
      show t.state = TileState.visible ↔ t.id ∈ ([] : List Nat)
      simp only [List.not_mem_nil, iff_false]
      refine setMatched_not_visible (setTileState C i1 TileState.matched) tid ?_ t ht
      intro u' hu' hv
      unfold setTileState at hu'
      obtain ⟨u, hu, huf⟩ := List.mem_map.mp hu'
      by_cases hc : (u.id == i1) = true
      · rw [if_pos hc] at huf
        rw [← huf] at hv
        simp at hv
      · rw [if_neg hc] at huf
        subst huf
        rcases (hvis u hu).mp hv with h | h
        · exact absurd h (by simpa using hc)
        · exact h
    · show C.pendingHideTimeout = true ↔ ([] : List Nat).length = 2
      rw [hpend]
      simp
  · rw [if_neg hfn]
    have hne' : i1 ≠ tid := fun h => hne h.symm
    refine ⟨hnd, ?_, ?_, ?_, ?_, ?_⟩
    · show ([i1, tid] : List Nat).Nodup
      simp [hne']
    · show ([i1, tid] : List Nat).length ≤ 2
      simp
    · show ∀ i ∈ ([i1, tid] : List Nat), ∃ t ∈ C.tiles, t.id = i
      intro i hi
      rcases List.mem_pair.mp hi with rfl | rfl
      · exact hex1
      · exact hex2
    · intro t ht
      show t.state = TileState.visible ↔ t.id ∈ ([i1, tid] : List Nat)
      rw [hvis t ht]
      simp
    · show (true : Bool) = true ↔ ([i1, tid] : List Nat).length = 2
      simp

theorem selectionAccepted_destruct (s : GameState) (tileId : Nat)
    (hacc : selectionAccepted s tileId = true) :
    ∃ tile, findTile s.tiles tileId = some tile ∧
      tile.state = TileState.hidden ∧ s.loading = false := by
  unfold selectionAccepted at hacc
  cases hf : findTile s.tiles tileId with
  | none => rw [hf] at hacc; simp at hacc
  | some tile =>
    rw [hf] at hacc
    simp only [Bool.and_eq_true, beq_iff_eq, Bool.not_eq_eq_eq_not, Bool.not_true] at hacc
    exact ⟨tile, rfl, hacc.1, hacc.2⟩

theorem inv_onTileSelected (s : GameState) (tid : Nat) (hinv : Inv s) :
    Inv (onTileSelected s tid) := by
  by_cases hacc : selectionAccepted s tid = true
  case neg =>
    rw [onTileSelected_not_accepted s tid (by simpa using hacc)]
    exact hinv
  case pos =>
    obtain ⟨tile, hf, hhid, hload⟩ := selectionAccepted_destruct s tid hacc
    have htid : tile.id = tid := by
      have := List.find?_some hf
      simpa using this
    have htmem : tile ∈ s.tiles := List.mem_of_find?_eq_some hf
    rw [onTileSelected_accepted_eq s tid tile hf hhid hload]
    by_cases hp : s.pendingHideTimeout = true
    · simp only [hp, if_true]
      have hinvA : Inv (hideMismatchedTiles s) := inv_hide s hinv
      have hnoVisA := hide_no_visible s hinv
      have hrev3 : (setTileState (startTimer (hideMismatchedTiles s)) tid
          TileState.visible).revealedTileIds = [] := by
        rw [setTileState_revealedTileIds, startTimer_revealedTileIds,
          hideMismatchedTiles_revealedTileIds]
      rw [hrev3]
      rw [if_neg (by simp)]
      apply inv_single_reveal _ tid
      · show ([] ++ [tid] : List Nat) = [tid]
        simp
      · show (startTimer (hideMismatchedTiles s)).pendingHideTimeout = false
        rw [startTimer_pending, hideMismatchedTiles_pending]
      · show ((setTileState (startTimer (hideMismatchedTiles s)) tid
            TileState.visible).tiles.map (fun t => t.id)).Nodup
        rw [setTileState_ids, startTimer_tiles, hideMismatchedTiles_ids]
        exact hinv.1
      · show ∃ t ∈ (setTileState (startTimer (hideMismatchedTiles s)) tid
            TileState.visible).tiles, t.id = tid
        apply exists_id_setTileState
        rw [startTimer_tiles]
        exact ⟨tile, mem_hide_of_not_visible s tile htmem (by rw [hhid]; simp), htid⟩
      · show ∀ t ∈ (setTileState (startTimer (hideMismatchedTiles s)) tid
            TileState.visible).tiles, (t.state = TileState.visible ↔ t.id = tid)
        have hchar := setVisible_vis_char (startTimer (hideMismatchedTiles s)) tid
          (fun _ => False) (by
            intro t ht
            rw [startTimer_tiles] at ht
            simpa using hnoVisA t ht)
        intro t ht
        have h2 := hchar t ht
        simpa using h2
    · simp only [Bool.not_eq_true] at hp
      simp only [hp, Bool.false_eq_true, if_false]
      obtain ⟨hnd, hrnd, hlen, hex, hvis, hpiff⟩ := hinv
      have hlen1 : s.revealedTileIds.length ≤ 1 := by
        rcases Nat.lt_or_ge s.revealedTileIds.length 2 with h | h
        · omega
        · have h2 : s.revealedTileIds.length = 2 := by omega
          rw [← hpiff] at h2
          rw [hp] at h2
          exact absurd h2 (by simp)
      cases hrv : s.revealedTileIds with
      | nil =>
        have hrev3 : (setTileState (startTimer s) tid
            TileState.visible).revealedTileIds = [] := by
          rw [setTileState_revealedTileIds, startTimer_revealedTileIds]
          exact hrv
        rw [hrev3]
        rw [if_neg (by simp)]
        apply inv_single_reveal _ tid
        · show ([] ++ [tid] : List Nat) = [tid]
          simp
        · show (startTimer s).pendingHideTimeout = false
          rw [startTimer_pending]
          exact hp
        · show ((setTileState (startTimer s) tid TileState.visible).tiles.map
            (fun t => t.id)).Nodup
          rw [setTileState_ids, startTimer_tiles]
          exact hnd
        · apply exists_id_setTileState
          rw [startTimer_tiles]
          exact ⟨tile, htmem, htid⟩
        · have hchar := setVisible_vis_char (startTimer s) tid
            (fun _ => False) (by
              intro t ht
              rw [startTimer_tiles] at ht
              rw [hvis t ht, hrv]
              simp)
          intro t ht
          have h2 := hchar t ht
          simpa using h2
      | cons i1 tl =>
        have htl : tl = [] := by
          cases tl with
          | nil => rfl
          | cons x xs =>
            rw [hrv] at hlen1
            simp at hlen1
        subst htl
        have hrev3 : (setTileState (startTimer s) tid
            TileState.visible).revealedTileIds = [i1] := by
          rw [setTileState_revealedTileIds, startTimer_revealedTileIds]
          exact hrv
        rw [hrev3]
        rw [if_pos (by simp)]
        have hne : tid ≠ i1 := by
          intro hc
          have hv := (hvis tile htmem)
          rw [hrv] at hv
          have : tile.state = TileState.visible := hv.mpr (by simp [htid, hc])
          rw [hhid] at this
          exact absurd this (by simp)
        apply inv_evaluate_pair _ i1 tid
        · show ([i1] ++ [tid] : List Nat) = [i1, tid]
          simp
        · show (startTimer s).pendingHideTimeout = false
          rw [startTimer_pending]
          exact hp
        · exact hne
        · show ((setTileState (startTimer s) tid TileState.visible).tiles.map
            (fun t => t.id)).Nodup
          rw [setTileState_ids, startTimer_tiles]
          exact hnd
        · show ∃ t ∈ (setTileState (startTimer s) tid TileState.visible).tiles, t.id = i1
          apply exists_id_setTileState
          rw [startTimer_tiles]
          exact hex i1 (by rw [hrv]; simp)
        · show ∃ t ∈ (setTileState (startTimer s) tid TileState.visible).tiles, t.id = tid
          apply exists_id_setTileState
          rw [startTimer_tiles]
          exact ⟨tile, htmem, htid⟩
        · have hchar := setVisible_vis_char (startTimer s) tid
            (fun i => i = i1) (by
              intro t ht
              rw [startTimer_tiles] at ht
              rw [hvis t ht, hrv]
              simp)
          intro t ht
          exact hchar t ht

theorem inv_step (s : GameState) (ev : GameEvent) (hinv : Inv s) : Inv (step s ev) := by
  cases ev with
  | select tid =>
    show Inv (applyCompletionEffect (onTileSelected s tid))
    exact inv_of_fields_eq _ _ (applyCompletionEffect_tiles _)
      (applyCompletionEffect_revealedTileIds _) (applyCompletionEffect_pending _)
      (inv_onTileSelected s tid hinv)
  | timeoutFire =>
    show Inv (if s.pendingHideTimeout then
        applyCompletionEffect (hideMismatchedTiles s) else s)
    split
    · exact inv_of_fields_eq _ _ (applyCompletionEffect_tiles _)
        (applyCompletionEffect_revealedTileIds _) (applyCompletionEffect_pending _)
        (inv_hide s hinv)
    · exact hinv

theorem inv_run (s : GameState) (events : List GameEvent) (hinv : Inv s) :
    Inv (run s events) := by
  induction events generalizing s with
  | nil => exact hinv
  | cons e rest ih => exact ih (step s e) (inv_step s e hinv)

/-- The invariant bounds the number of visible tiles by two. -/
theorem countVisible_le_two (s : GameState) (hinv : Inv s) : countVisible s ≤ 2 := by
  obtain ⟨hnd, hrnd, hlen, -, hvis, -⟩ := hinv
  unfold countVisible
  have hlenmap : (s.tiles.filter (fun t => t.state == TileState.visible)).length =
      ((s.tiles.filter (fun t => t.state == TileState.visible)).map (fun t => t.id)).length := by
    rw [List.length_map]
  rw [hlenmap]
  have hsub : List.Sublist
      ((s.tiles.filter (fun t => t.state == TileState.visible)).map (fun t => t.id))
      (s.tiles.map (fun t => t.id)) :=
    (List.filter_sublist _).map _
  have hndf : ((s.tiles.filter (fun t => t.state == TileState.visible)).map
      (fun t => t.id)).Nodup := hnd.sublist hsub
  have hsubset : ((s.tiles.filter (fun t => t.state == TileState.visible)).map
      (fun t => t.id)) ⊆ s.revealedTileIds := by
    intro x hx
    obtain ⟨t, ht, hid⟩ := List.mem_map.mp hx
    obtain ⟨htmem, hstate⟩ := List.mem_filter.mp ht
    rw [← hid]
    exact (hvis t htmem).mp (by simpa using hstate)
  exact le_trans (List.subperm_of_subset hndf hsubset).length_le hlen

/-- A fresh session satisfies the invariant. -/
theorem inv_setupGame (images : List ImageAsset) (p : Nat) (cols : Option Nat)
    (r1 r2 : Nat → Nat) (s0 : GameState)
    (h : setupGame images p cols r1 r2 = some s0) : Inv s0 := by
  by_cases hk : images.length < 2
  · unfold setupGame at h
    rw [if_pos hk] at h
    exact Option.noConfusion h
  · push_neg at hk
    rw [setupGame_some images p cols r1 r2 hk] at h
    injection h with h
    subst h
    refine ⟨?_, by simp, by simp, by simp, ?_, by simp⟩
    · show ((shuffle r2 (createTilePairs 0
        ((shuffle r1 images).take (min p images.length)))).map (fun t => t.id)).Nodup
      exact ((shuffle_perm r2 _).map (fun t : GameTile => t.id)).nodup_iff.mpr
        (createTilePairs_ids_nodup 0 _)
    · intro t ht
      show t.state = TileState.visible ↔ t.id ∈ ([] : List Nat)
      simp only [List.not_mem_nil, iff_false]
      have htmem : t ∈ createTilePairs 0 ((shuffle r1 images).take (min p images.length)) :=
        (shuffle_perm r2 _).mem_iff.mp ht
      rw [createTilePairs_hidden 0 _ t htmem]
      simp

/-- Claim C1: starting from any freshly built session, along every sequence
of tile-selection and timer-expiry events at no point do more than two
tiles hold state 'visible'. -/
theorem claim_C1_at_most_two_visible :
    ∀ (images : List ImageAsset) (p : Nat) (cols : Option Nat) (r1 r2 : Nat → Nat)
      (s0 : GameState) (events : List GameEvent),
      setupGame images p cols r1 r2 = some s0 →
      countVisible (run s0 events) ≤ 2 := by
  intro images p cols r1 r2 s0 events hsetup
  exact countVisible_le_two _
    (inv_run s0 events (inv_setupGame images p cols r1 r2 s0 hsetup))

/-- Witness for C1 on a concrete 2-pair session and a play that reveals,
interrupts a pending mismatch, and lets the timeout fire. -/
theorem claim_C1_witness :
    countVisible (run sessionAB
      [GameEvent.select 1, GameEvent.select 3, GameEvent.select 2,
        GameEvent.timeoutFire]) ≤ 2 :=
  claim_C1_at_most_two_visible imagesAB 2 none rndId rndId sessionAB _ (by decide)


theorem angleOk_cons (c : Char) (rest : List Char) :
    angleOk (c :: rest) =
      ((if c = '<' then angleTailOk rest else true) && angleOk rest) := rfl

theorem angleTailOk_cons (c : Char) (rest : List Char) :
    angleTailOk (c :: rest) =
      (if c = '/' || c = 'b' || c = 'p' || c = 'c' then true
       else if c = 's' then
         (match rest with
          | t :: _ => decide (t = 't')
          | [] => false)
       else false) := rfl

theorem angleOk_tail (c : Char) (rest : List Char) (h : angleOk (c :: rest) = true) :
    angleOk rest = true := by
  rw [angleOk_cons] at h
  exact (Bool.and_eq_true _ _ |>.mp h).2

theorem angleOk_cons_of_ne (c : Char) (rest : List Char) (hc : c ≠ '<')
    (h : angleOk rest = true) : angleOk (c :: rest) = true := by
  rw [angleOk_cons, if_neg hc]
  simpa using h

theorem angleOk_cons_lt (rest : List Char) (htail : angleTailOk rest = true)
    (h : angleOk rest = true) : angleOk ('<' :: rest) = true := by
  rw [angleOk_cons, if_pos rfl]
  simp [htail, h]

theorem angleTailOk_of_cons (c : Char) (rest : List Char)
    (h : angleOk ('<' :: c :: rest) = true) : angleTailOk (c :: rest) = true := by
  rw [angleOk_cons, if_pos rfl] at h
  exact (Bool.and_eq_true _ _ |>.mp h).1

theorem angleTailOk_append (l y : List Char) (h : angleTailOk l = true) :
    angleTailOk (l ++ y) = true := by
  cases l with
  | nil => simp [angleTailOk] at h
  | cons c rest =>
    rw [List.cons_append, angleTailOk_cons]
    rw [angleTailOk_cons] at h
    by_cases h1 : (c = '/' || c = 'b' || c = 'p' || c = 'c') = true
    · rw [if_pos h1]
    · rw [if_neg h1] at h ⊢
      by_cases h2 : c = 's'
      · rw [if_pos h2] at h ⊢
        cases rest with
        | nil => simp at h
        | cons t r2 =>
          show (match t :: (r2 ++ y) with
            | t :: _ => decide (t = 't')
            | [] => false) = true
          exact h
      · rw [if_neg h2] at h
        simp at h

theorem angleOk_append (x y : List Char) (hx : angleOk x = true) (hy : angleOk y = true) :
    angleOk (x ++ y) = true := by
  induction x with
  | nil => simpa using hy
  | cons c rest ih =>
    have hrest := angleOk_tail c rest hx
    have hok : angleOk (rest ++ y) = true := ih hrest
    rw [List.cons_append, angleOk_cons]
    by_cases hc : c = '<'
    · subst hc
      rw [if_pos rfl]
      cases rest with
      | nil =>
        rw [angleOk_cons, if_pos rfl] at hx
        simp [angleTailOk] at hx
      | cons d rest2 =>
        have htail := angleTailOk_of_cons d rest2 hx
        have := angleTailOk_append (d :: rest2) y htail
        rw [List.cons_append] at this
        rw [List.cons_append] at hok
        simp [this, hok]
    · rw [if_neg hc]
      simpa using hok

theorem angleOk_of_no_lt (l : List Char) (h : '<' ∉ l) : angleOk l = true := by
  induction l with
  | nil => rfl
  | cons c rest ih =>
    have hc : c ≠ '<' := fun hc => h (by rw [hc]; exact List.mem_cons_self _ _)
    exact angleOk_cons_of_ne c rest hc (ih (fun hm => h (List.mem_cons_of_mem c hm)))

theorem mem_replaceChar (a c : Char) (rep l : List Char)
    (h : a ∈ replaceChar c rep l) : a ∈ rep ∨ (a ∈ l ∧ a ≠ c) := by
  induction l with
  | nil => simp [replaceChar] at h
  | cons x xs ih =>
    unfold replaceChar at h
    by_cases hx : x = c
    · rw [if_pos hx] at h
      rcases List.mem_append.mp h with h1 | h1
      · exact Or.inl h1
      · rcases ih h1 with h2 | h2
        · exact Or.inl h2
        · exact Or.inr ⟨List.mem_cons_of_mem x h2.1, h2.2⟩
    · rw [if_neg hx] at h
      rcases List.mem_cons.mp h with h1 | h1
      · subst h1
        exact Or.inr ⟨List.mem_cons_self _ _, hx⟩
      · rcases ih h1 with h2 | h2
        · exact Or.inl h2
        · exact Or.inr ⟨List.mem_cons_of_mem x h2.1, h2.2⟩

theorem escapeHtml_no_lt (v : List Char) : '<' ∉ escapeHtml v := by
  unfold escapeHtml
  intro hmem
  have h1 := mem_replaceChar _ _ _ _ hmem
  rcases h1 with h1 | h1
  · simp at h1
  · have h2 := mem_replaceChar _ _ _ _ h1.1
    rcases h2 with h2 | h2
    · simp at h2
    · have h3 := mem_replaceChar _ _ _ _ h2.1
      rcases h3 with h3 | h3
      · simp at h3
      · have h4 := mem_replaceChar _ _ _ _ h3.1
        rcases h4 with h4 | h4
        · simp at h4
        · exact absurd rfl h4.2

theorem no_script_of_angleOk (l : List Char) (h : angleOk l = true) :
    containsSeq "<script".data l = false := by
  induction l with
  | nil => rfl
  | cons c rest ih =>
    unfold containsSeq
    rw [Bool.or_eq_false_iff]
    refine ⟨?_, ih (angleOk_tail c rest h)⟩
    by_cases hl : leadsWith "<script".data (c :: rest) = true
    · exfalso
      have hpat : "<script".data = '<' :: 's' :: 'c' :: "ript".data := by decide
      rw [hpat] at hl
      cases rest with
      | nil => simp [leadsWith] at hl
      | cons d rest2 =>
        cases rest2 with
        | nil => simp [leadsWith] at hl
        | cons e rest3 =>
          simp only [leadsWith, Bool.and_eq_true, decide_eq_true_eq] at hl
          obtain ⟨hc, hd, he, -⟩ := hl
          subst hc
          subst hd
          subst he
          have htail := angleTailOk_of_cons 's' ('c' :: rest3) h
          simp [angleTailOk] at htail
    · simpa using hl


theorem boldClose_cons3 (c d e : Char) (rest2 : List Char) :
    boldClose (c :: d :: e :: rest2) =
      (if c = '\n' then none
       else if d = '*' ∧ e = '*' then some ([c], rest2)
       else (boldClose (d :: e :: rest2)).map (fun p => (c :: p.1, p.2))) := rfl

theorem boldClose_short_nil : boldClose ([] : List Char) = none := rfl

theorem boldClose_short_one (c : Char) : boldClose [c] = none := rfl

theorem boldClose_short_two (c d : Char) : boldClose [c, d] = none := rfl

theorem boldClose_head (x : Char) (r : List Char) (p : List Char × List Char)
    (h : boldClose (x :: r) = some p) : ∃ tl, p.1 = x :: tl := by
  cases r with
  | nil => exact Option.noConfusion (boldClose_short_one x ▸ h)
  | cons d r1 =>
    cases r1 with
    | nil => exact Option.noConfusion (boldClose_short_two x d ▸ h)
    | cons e r2 =>
      rw [boldClose_cons3] at h
      by_cases hx : x = '\n'
      · rw [if_pos hx] at h
        exact Option.noConfusion h
      · rw [if_neg hx] at h
        by_cases hde : d = '*' ∧ e = '*'
        · rw [if_pos hde] at h
          injection h with h
          exact ⟨[], by rw [← h]⟩
        · rw [if_neg hde] at h
          obtain ⟨q, hq, heq⟩ := Option.map_eq_some'.mp h
          exact ⟨q.1, by rw [← heq]⟩

theorem angleOk_boldClose (l : List Char) (p : List Char × List Char)
    (hok : angleOk l = true) (h : boldClose l = some p) :
    angleOk p.1 = true ∧ angleOk p.2 = true := by
  induction l generalizing p with
  | nil => exact Option.noConfusion h
  | cons c rest ih =>
    cases rest with
    | nil => exact Option.noConfusion (boldClose_short_one c ▸ h)
    | cons d r1 =>
      cases r1 with
      | nil => exact Option.noConfusion (boldClose_short_two c d ▸ h)
      | cons e r2 =>
        rw [boldClose_cons3] at h
        by_cases hc : c = '\n'
        · rw [if_pos hc] at h
          exact Option.noConfusion h
        · rw [if_neg hc] at h
          have hcne : c ≠ '<' → angleOk [c] = true := fun hne =>
            angleOk_cons_of_ne c [] hne rfl
          by_cases hde : d = '*' ∧ e = '*'
          · rw [if_pos hde] at h
            injection h with h
            subst h
            refine ⟨?_, ?_⟩
            · by_cases hlt : c = '<'
              · exfalso
                subst hlt
                have := angleTailOk_of_cons d (e :: r2) hok
                rw [angleTailOk_cons] at this
                rw [hde.1] at this
                simp at this
              · exact hcne hlt
            · exact angleOk_tail _ _ (angleOk_tail _ _ (angleOk_tail _ _ hok))
          · rw [if_neg hde] at h
            obtain ⟨q, hq, heq⟩ := Option.map_eq_some'.mp h
            have hokrest : angleOk (d :: e :: r2) = true := angleOk_tail _ _ hok
            obtain ⟨hq1, hq2⟩ := ih q hokrest hq
            have hp1 : p.1 = c :: q.1 := by rw [← heq]
            have hp2 : p.2 = q.2 := by rw [← heq]
            refine ⟨?_, by rw [hp2]; exact hq2⟩
            rw [hp1]
            by_cases hlt : c = '<'
            · subst hlt
              have htail := angleTailOk_of_cons d (e :: r2) hok
              apply angleOk_cons_lt q.1 ?_ hq1
              rw [angleTailOk_cons] at htail
              by_cases h1 : (d = '/' || d = 'b' || d = 'p' || d = 'c') = true
              · obtain ⟨tl, htl⟩ := boldClose_head d (e :: r2) q hq
                rw [htl, angleTailOk_cons]
                rw [if_pos h1]
              · rw [if_neg h1] at htail
                by_cases h2 : d = 's'
                · rw [if_pos h2] at htail
                  have he : e = 't' := by simpa using htail
                  subst h2
                  subst he
                  cases r2 with
                  | nil => exact Option.noConfusion (boldClose_short_two 's' 't' ▸ hq)
                  | cons f r3 =>
                    rw [boldClose_cons3, if_neg (by decide),
                      if_neg (by rintro ⟨h1', -⟩; exact absurd h1' (by decide))] at hq
                    obtain ⟨q2, hq2', heq2⟩ := Option.map_eq_some'.mp hq
                    obtain ⟨tq, htq⟩ := boldClose_head 't' (f :: r3) q2 hq2'
                    have hq1eq : q.1 = 's' :: q2.1 := by rw [← heq2]
                    rw [hq1eq, htq, angleTailOk_cons]
                    simp
                · rw [if_neg h2] at htail
                  simp at htail
            · exact angleOk_cons_of_ne c q.1 hlt hq1


theorem bp_nil_any (f : Nat) : boldPassF f [] = [] := by
  cases f <;> rfl

theorem bp_copy_ne (g : Nat) (c : Char) (rest : List Char) (hc : c ≠ '*') :
    boldPassF (g + 1) (c :: rest) = c :: boldPassF g rest := by
  rw [boldPassF.eq_def]
  split
  · omega
  · simp_all
  · next heq1 heq2 =>
    simp only [List.cons.injEq] at heq2
    exact absurd heq2.1 hc
  · next heq1 heq2 =>
    injection heq1 with h3
    injection heq2 with h1 h2
    subst h1
    subst h2
    rw [h3]

theorem bp_star2 (g : Nat) (rest1 : List Char) :
    boldPassF (g + 1) ('*' :: '*' :: rest1) =
      (match boldClose rest1 with
       | some (content, rest2) =>
           "<strong>".data ++ content ++ "</strong>".data ++ boldPassF g rest2
       | none => '*' :: boldPassF g ('*' :: rest1)) := rfl

theorem bp_copy_star_ne (g : Nat) (d : Char) (rest1 : List Char) (hd : d ≠ '*') :
    boldPassF (g + 1) ('*' :: d :: rest1) = '*' :: boldPassF g (d :: rest1) := by
  rw [boldPassF.eq_def]
  split
  · omega
  · simp_all
  · next heq1 heq2 =>
    simp only [List.cons.injEq] at heq2
    exact absurd heq2.2.1 hd
  · next heq1 heq2 =>
    injection heq1 with h3
    injection heq2 with h1 h2
    subst h1
    subst h2
    rw [h3]

theorem bp_star_single (g : Nat) : boldPassF (g + 1) ['*'] = ['*'] := by
  rw [boldPassF.eq_def]
  split
  · omega
  · simp_all
  · next heq1 heq2 =>
    simp at heq2
  · next heq1 heq2 =>
    injection heq2 with h1 h2
    subst h1
    subst h2
    rw [bp_nil_any]

theorem boldPassF_tailOk (f : Nat) (l : List Char)
    (htail : angleTailOk l = true) (hok : angleOk l = true) :
    angleTailOk (boldPassF f l) = true := by
  cases f with
  | zero => simpa [boldPassF] using htail
  | succ g =>
    cases l with
    | nil => simp [angleTailOk] at htail
    | cons c rest =>
      rw [angleTailOk_cons] at htail
      by_cases h1 : (c = '/' || c = 'b' || c = 'p' || c = 'c') = true
      · have hc : c ≠ '*' := by
          intro hstar
          subst hstar
          simp at h1
        rw [bp_copy_ne g c rest hc, angleTailOk_cons, if_pos h1]
      · rw [if_neg h1] at htail
        by_cases h2 : c = 's'
        · rw [if_pos h2] at htail
          cases rest with
          | nil => simp at htail
          | cons t r2 =>
            have ht : t = 't' := by simpa using htail
            subst h2
            subst ht
            rw [bp_copy_ne g 's' _ (by decide), angleTailOk_cons]
            rw [if_neg (by decide), if_pos rfl]
            cases g with
            | zero =>
              show (match 't' :: r2 with
                | t :: _ => decide (t = 't')
                | [] => false) = true
              simp
            | succ g2 =>
              rw [bp_copy_ne g2 't' r2 (by decide)]
              show (match 't' :: boldPassF g2 r2 with
                | t :: _ => decide (t = 't')
                | [] => false) = true
              simp
        · rw [if_neg h2] at htail
          simp at htail

theorem angleOk_boldPassF (f : Nat) : ∀ l, angleOk l = true →
    angleOk (boldPassF f l) = true := by
  induction f with
  | zero =>
    intro l h
    simpa [boldPassF] using h
  | succ g ih =>
    intro l h
    cases l with
    | nil => simpa [boldPassF] using h
    | cons c rest =>
      by_cases hc : c = '*'
      · subst hc
        cases rest with
        | nil =>
          rw [bp_star_single]
          exact h
        | cons d rest1 =>
          by_cases hd : d = '*'
          · subst hd
            rw [bp_star2]
            cases hbc : boldClose rest1 with
            | none =>
              show angleOk ('*' :: boldPassF g ('*' :: rest1)) = true
              exact angleOk_cons_of_ne '*' _ (by decide) (ih _ (angleOk_tail _ _ h))
            | some p =>
              obtain ⟨content, rest2⟩ := p
              show angleOk ("<strong>".data ++ content ++ "</strong>".data ++
                boldPassF g rest2) = true
              have hok1 : angleOk rest1 = true := angleOk_tail _ _ (angleOk_tail _ _ h)
              obtain ⟨hokc, hokr⟩ := angleOk_boldClose rest1 (content, rest2) hok1 hbc
              refine angleOk_append _ _ ?_ (ih _ hokr)
              refine angleOk_append _ _ ?_ (by decide)
              exact angleOk_append _ _ (by decide) hokc
          · rw [bp_copy_star_ne g d rest1 hd]
            exact angleOk_cons_of_ne '*' _ (by decide) (ih _ (angleOk_tail _ _ h))
      · rw [bp_copy_ne g c rest hc]
        by_cases hlt : c = '<'
        · subst hlt
          cases rest with
          | nil =>
            rw [angleOk_cons, if_pos rfl] at h
            simp [angleTailOk] at h
          | cons d rest2 =>
            exact angleOk_cons_lt _
              (boldPassF_tailOk g (d :: rest2) (angleTailOk_of_cons d rest2 h)
                (angleOk_tail _ _ h))
              (ih _ (angleOk_tail _ _ h))
        · exact angleOk_cons_of_ne c _ hlt (ih _ (angleOk_tail _ _ h))


theorem angleTailOk_plain (f : List Char → List Char)
    (hcopy : ∀ c rest, (c = '/' ∨ c = 'b' ∨ c = 'p' ∨ c = 'c' ∨ c = 's' ∨ c = 't') →
      f (c :: rest) = c :: f rest)
    (l : List Char) (htail : angleTailOk l = true) : angleTailOk (f l) = true := by
  cases l with
  | nil => simp [angleTailOk] at htail
  | cons c rest =>
    rw [angleTailOk_cons] at htail
    by_cases h1 : (c = '/' || c = 'b' || c = 'p' || c = 'c') = true
    · have hor : c = '/' ∨ c = 'b' ∨ c = 'p' ∨ c = 'c' ∨ c = 's' ∨ c = 't' := by
        simp only [Bool.or_eq_true, decide_eq_true_eq] at h1
        tauto
      rw [hcopy c rest hor, angleTailOk_cons, if_pos h1]
    · rw [if_neg h1] at htail
      by_cases h2 : c = 's'
      · rw [if_pos h2] at htail
        cases rest with
        | nil => simp at htail
        | cons t r2 =>
          have ht : t = 't' := by simpa using htail
          subst h2
          subst ht
          rw [hcopy 's' _ (by tauto), hcopy 't' _ (by tauto), angleTailOk_cons]
          rw [if_neg (by decide), if_pos rfl]
          show (match 't' :: f r2 with
            | t :: _ => decide (t = 't')
            | [] => false) = true
          simp
      · rw [if_neg h2] at htail
        simp at htail

theorem angleTailOk_family (f : Nat → List Char → List Char)
    (h0 : ∀ l, f 0 l = l)
    (hcopy : ∀ g c rest, (c = '/' ∨ c = 'b' ∨ c = 'p' ∨ c = 'c' ∨ c = 's' ∨ c = 't') →
      f (g + 1) (c :: rest) = c :: f g rest)
    (g : Nat) (l : List Char) (htail : angleTailOk l = true) :
    angleTailOk (f g l) = true := by
  cases g with
  | zero => rw [h0]; exact htail
  | succ g2 =>
    cases l with
    | nil => simp [angleTailOk] at htail
    | cons c rest =>
      rw [angleTailOk_cons] at htail
      by_cases h1 : (c = '/' || c = 'b' || c = 'p' || c = 'c') = true
      · have hor : c = '/' ∨ c = 'b' ∨ c = 'p' ∨ c = 'c' ∨ c = 's' ∨ c = 't' := by
          simp only [Bool.or_eq_true, decide_eq_true_eq] at h1
          tauto
        rw [hcopy g2 c rest hor, angleTailOk_cons, if_pos h1]
      · rw [if_neg h1] at htail
        by_cases h2 : c = 's'
        · rw [if_pos h2] at htail
          cases rest with
          | nil => simp at htail
          | cons t r2 =>
            have ht : t = 't' := by simpa using htail
            subst h2
            subst ht
            rw [hcopy g2 's' _ (by tauto), angleTailOk_cons]
            rw [if_neg (by decide), if_pos rfl]
            cases g2 with
            | zero =>
              rw [h0]
              show (match 't' :: r2 with
                | t :: _ => decide (t = 't')
                | [] => false) = true
              simp
            | succ g3 =>
              rw [hcopy g3 't' r2 (by tauto)]
              show (match 't' :: f g3 r2 with
                | t :: _ => decide (t = 't')
                | [] => false) = true
              simp
        · rw [if_neg h2] at htail
          simp at htail

theorem angleOk_tail_any (l : List Char) (h : angleOk l = true) :
    angleOk l.tail = true := by
  cases l with
  | nil => exact h
  | cons c rest => exact angleOk_tail c rest h

theorem angleOk_drop : ∀ (n : Nat) (l : List Char), angleOk l = true →
    angleOk (l.drop n) = true
  | 0, _, h => h
  | _ + 1, [], h => by simpa using h
  | n + 1, c :: rest, h => by
      rw [List.drop_succ_cons]
      exact angleOk_drop n rest (angleOk_tail c rest h)

theorem angleOk_dropWhile (p : Char → Bool) : ∀ (l : List Char), angleOk l = true →
    angleOk (l.dropWhile p) = true
  | [], h => h
  | c :: rest, h => by
      rw [List.dropWhile_cons]
      split
      · exact angleOk_dropWhile p rest (angleOk_tail c rest h)
      · exact h

theorem tw_copy (c : Char) (rest : List Char) (hc : (c != btk) = true) :
    (c :: rest).takeWhile (fun x => x != btk) =
      c :: rest.takeWhile (fun x => x != btk) := by
  rw [List.takeWhile_cons, if_pos hc]

theorem tw_tailOk (l : List Char) (htail : angleTailOk l = true) :
    angleTailOk (l.takeWhile (fun x => x != btk)) = true := by
  refine angleTailOk_plain _ ?_ l htail
  intro c rest hc
  rcases hc with rfl | rfl | rfl | rfl | rfl | rfl <;> exact tw_copy _ _ (by decide)

theorem angleOk_takeWhile_btk : ∀ (l : List Char), angleOk l = true →
    angleOk (l.takeWhile (fun x => x != btk)) = true
  | [], h => h
  | c :: rest, h => by
      by_cases hcb : (c != btk) = true
      · rw [tw_copy c rest hcb]
        by_cases hlt : c = '<'
        · subst hlt
          cases rest with
          | nil =>
            rw [angleOk_cons, if_pos rfl] at h
            simp [angleTailOk] at h
          | cons d r2 =>
            exact angleOk_cons_lt _
              (tw_tailOk (d :: r2) (angleTailOk_of_cons d r2 h))
              (angleOk_takeWhile_btk (d :: r2) (angleOk_tail _ _ h))
        · exact angleOk_cons_of_ne c _ hlt
            (angleOk_takeWhile_btk rest (angleOk_tail _ _ h))
      · rw [List.takeWhile_cons, if_neg hcb]
        rfl

theorem ct_zero (l : List Char) : codeTickPassF 0 l = l := rfl

theorem ct_nil (f : Nat) : codeTickPassF f [] = [] := by
  cases f <;> rfl

theorem ct_cons (g : Nat) (c : Char) (rest : List Char) :
    codeTickPassF (g + 1) (c :: rest) =
      (if c = btk then
        (if (rest.dropWhile (fun x => x != btk)).isEmpty then
          c :: codeTickPassF g rest
         else if (rest.takeWhile (fun x => x != btk)).isEmpty then
          c :: codeTickPassF g rest
         else "<code>".data ++ rest.takeWhile (fun x => x != btk) ++ "</code>".data ++
           codeTickPassF g ((rest.dropWhile (fun x => x != btk)).tail))
       else c :: codeTickPassF g rest) := rfl

theorem ct_ne (g : Nat) (c : Char) (rest : List Char) (hc : c ≠ btk) :
    codeTickPassF (g + 1) (c :: rest) = c :: codeTickPassF g rest := by
  rw [ct_cons, if_neg hc]

theorem ct_tailOk (g : Nat) (l : List Char) (htail : angleTailOk l = true) :
    angleTailOk (codeTickPassF g l) = true := by
  refine angleTailOk_family codeTickPassF ct_zero ?_ g l htail
  intro g2 c rest hc
  rcases hc with rfl | rfl | rfl | rfl | rfl | rfl <;> exact ct_ne g2 _ rest (by decide)

theorem angleOk_codeTickPassF : ∀ (f : Nat) (l : List Char), angleOk l = true →
    angleOk (codeTickPassF f l) = true := by
  intro f
  induction f with
  | zero =>
    intro l h
    exact h
  | succ g ih =>
    intro l h
    cases l with
    | nil =>
      rw [ct_nil]
      rfl
    | cons c rest =>
      by_cases hc : c = btk
      · subst hc
        rw [ct_cons, if_pos rfl]
        have h2 : angleOk rest = true := angleOk_tail _ _ h
        split
        · exact angleOk_cons_of_ne btk _ (by decide) (ih rest h2)
        · split
          · exact angleOk_cons_of_ne btk _ (by decide) (ih rest h2)
          · refine angleOk_append _ _ ?_
              (ih _ (angleOk_tail_any _ (angleOk_dropWhile _ rest h2)))
            refine angleOk_append _ _ ?_ (by decide)
            exact angleOk_append _ _ (by decide) (angleOk_takeWhile_btk rest h2)
      · rw [ct_ne g c rest hc]
        by_cases hlt : c = '<'
        · subst hlt
          cases rest with
          | nil =>
            rw [angleOk_cons, if_pos rfl] at h
            simp [angleTailOk] at h
          | cons d r2 =>
            exact angleOk_cons_lt _
              (ct_tailOk g (d :: r2) (angleTailOk_of_cons d r2 h))
              (ih _ (angleOk_tail _ _ h))
        · exact angleOk_cons_of_ne c _ hlt (ih rest (angleOk_tail _ _ h))

theorem replaceChar_br_copy (c : Char) (rest : List Char) (hc : c ≠ '\n') :
    replaceChar '\n' "<br />".data (c :: rest) =
      c :: replaceChar '\n' "<br />".data rest := by
  simp [replaceChar, hc]

theorem replaceChar_br_nl (rest : List Char) :
    replaceChar '\n' "<br />".data ('\n' :: rest) =
      "<br />".data ++ replaceChar '\n' "<br />".data rest := by
  simp [replaceChar]

theorem br_tailOk (l : List Char) (htail : angleTailOk l = true) :
    angleTailOk (replaceChar '\n' "<br />".data l) = true := by
  refine angleTailOk_plain _ ?_ l htail
  intro c rest hc
  rcases hc with rfl | rfl | rfl | rfl | rfl | rfl <;>
    exact replaceChar_br_copy _ rest (by decide)

theorem angleOk_replaceChar_br : ∀ (l : List Char), angleOk l = true →
    angleOk (replaceChar '\n' "<br />".data l) = true
  | [], h => h
  | c :: rest, h => by
      by_cases hn : c = '\n'
      · subst hn
        rw [replaceChar_br_nl]
        exact angleOk_append _ _ (by decide)
          (angleOk_replaceChar_br rest (angleOk_tail _ _ h))
      · rw [replaceChar_br_copy c rest hn]
        by_cases hlt : c = '<'
        · subst hlt
          cases rest with
          | nil =>
            rw [angleOk_cons, if_pos rfl] at h
            simp [angleTailOk] at h
          | cons d r2 =>
            exact angleOk_cons_lt _
              (br_tailOk (d :: r2) (angleTailOk_of_cons d r2 h))
              (angleOk_replaceChar_br (d :: r2) (angleOk_tail _ _ h))
        · exact angleOk_cons_of_ne c _ hlt
            (angleOk_replaceChar_br rest (angleOk_tail _ _ h))

theorem restoreAt_slash (rest : List Char) : restoreAt ('/' :: rest) = none := rfl

theorem restoreAt_b (rest : List Char) : restoreAt ('b' :: rest) = none := rfl

theorem restoreAt_p (rest : List Char) : restoreAt ('p' :: rest) = none := rfl

theorem restoreAt_c (rest : List Char) : restoreAt ('c' :: rest) = none := rfl

theorem restoreAt_s (rest : List Char) : restoreAt ('s' :: rest) = none := rfl

theorem restoreAt_t (rest : List Char) : restoreAt ('t' :: rest) = none := rfl

theorem restoreAt_lt (rest : List Char) : restoreAt ('<' :: rest) = none := rfl

theorem rp_zero (ph : List (List Char)) (l : List Char) : restorePassF ph 0 l = l := rfl

theorem rp_cons (ph : List (List Char)) (g : Nat) (c : Char) (rest : List Char) :
    restorePassF ph (g + 1) (c :: rest) =
      (match restoreAt (c :: rest) with
       | some (idx, rest2) => ph.getD idx [] ++ restorePassF ph g rest2
       | none => c :: restorePassF ph g rest) := rfl

theorem rp_copy (ph : List (List Char)) (g : Nat) (c : Char) (rest : List Char)
    (hnone : restoreAt (c :: rest) = none) :
    restorePassF ph (g + 1) (c :: rest) = c :: restorePassF ph g rest := by
  rw [rp_cons, hnone]

theorem rp_tailOk (ph : List (List Char)) (g : Nat) (l : List Char)
    (htail : angleTailOk l = true) : angleTailOk (restorePassF ph g l) = true := by
  refine angleTailOk_family (restorePassF ph) (rp_zero ph) ?_ g l htail
  intro g2 c rest hc
  rcases hc with rfl | rfl | rfl | rfl | rfl | rfl
  · exact rp_copy ph g2 _ rest (restoreAt_slash rest)
  · exact rp_copy ph g2 _ rest (restoreAt_b rest)
  · exact rp_copy ph g2 _ rest (restoreAt_p rest)
  · exact rp_copy ph g2 _ rest (restoreAt_c rest)
  · exact rp_copy ph g2 _ rest (restoreAt_s rest)
  · exact rp_copy ph g2 _ rest (restoreAt_t rest)

theorem restoreAt_angleOk (l : List Char) (idx : Nat) (rest2 : List Char)
    (hr : restoreAt l = some (idx, rest2)) (h : angleOk l = true) :
    angleOk rest2 = true := by
  simp only [restoreAt] at hr
  split at hr
  · split at hr
    · next u1 u2 r2 heq1 heq2 =>
      split at hr
      · have hr2 : rest2 = r2 := (congrArg Prod.snd (Option.some.inj hr)).symm
        subst hr2
        have hd : angleOk ((l.drop 13).dropWhile Char.isDigit) = true :=
          angleOk_dropWhile _ _ (angleOk_drop 13 l h)
        rw [heq2] at hd
        exact angleOk_tail _ _ (angleOk_tail _ _ hd)
      · exact absurd hr (by simp)
    · exact absurd hr (by simp)
  · exact absurd hr (by simp)

theorem getD_angleOk : ∀ (ph : List (List Char)), (∀ p ∈ ph, angleOk p = true) →
    ∀ (idx : Nat), angleOk (ph.getD idx []) = true
  | [], _, idx => by cases idx <;> rfl
  | p :: ps, hph, 0 => by simpa using hph p (by simp)
  | p :: ps, hph, idx + 1 => by
      simpa using getD_angleOk ps (fun q hq => hph q (by simp [hq])) idx

theorem angleOk_restorePassF (ph : List (List Char))
    (hph : ∀ p ∈ ph, angleOk p = true) : ∀ (g : Nat) (l : List Char),
    angleOk l = true → angleOk (restorePassF ph g l) = true := by
  intro g
  induction g with
  | zero =>
    intro l h
    exact h
  | succ g2 ih =>
    intro l h
    cases l with
    | nil => exact h
    | cons c rest =>
      cases hres : restoreAt (c :: rest) with
      | none =>
        rw [rp_copy ph g2 c rest hres]
        by_cases hlt : c = '<'
        · subst hlt
          cases rest with
          | nil =>
            rw [angleOk_cons, if_pos rfl] at h
            simp [angleTailOk] at h
          | cons d r2 =>
            exact angleOk_cons_lt _
              (rp_tailOk ph g2 (d :: r2) (angleTailOk_of_cons d r2 h))
              (ih _ (angleOk_tail _ _ h))
        · exact angleOk_cons_of_ne c _ hlt (ih rest (angleOk_tail _ _ h))
      | some pr =>
        obtain ⟨idx, rest2⟩ := pr
        rw [rp_cons, hres]
        exact angleOk_append _ _ (getD_angleOk ph hph idx)
          (ih rest2 (restoreAt_angleOk (c :: rest) idx rest2 hres h))

theorem safeLang_no_lt (lang : List Char) : '<' ∉ normalizeLanguage lang := by
  intro hmem
  simp only [normalizeLanguage] at hmem
  have h2 := List.of_mem_filter hmem
  exact absurd h2 (by decide)

theorem buildCodeHtml_angleOk (lang content : List Char) :
    angleOk (buildCodeHtml lang content) = true := by
  simp only [buildCodeHtml]
  refine angleOk_append _ _ ?_ (by decide)
  refine angleOk_append _ _ ?_ (angleOk_of_no_lt _ (escapeHtml_no_lt _))
  refine angleOk_append _ _ ?_ (by decide)
  refine angleOk_append _ _ (by decide) ?_
  split
  · rfl
  · refine angleOk_append _ _ ?_ (by decide)
    exact angleOk_append _ _ (by decide) (angleOk_of_no_lt _ (safeLang_no_lt lang))

theorem fenceScan_zero (l : List Char) (acc : List (List Char)) :
    fenceScanF 0 l acc = (l, acc) := rfl

theorem fenceScan_nil (f : Nat) (acc : List (List Char)) :
    fenceScanF f [] acc = ([], acc) := by
  cases f <;> rfl

theorem fenceScan_cons (g : Nat) (c : Char) (rest : List Char)
    (acc : List (List Char)) :
    fenceScanF (g + 1) (c :: rest) acc =
      (match fenceAt (c :: rest) with
       | some (lang, content, rest2) =>
           (placeholderToken acc.length ++
              (fenceScanF g rest2 (acc ++ [buildCodeHtml lang content])).1,
            (fenceScanF g rest2 (acc ++ [buildCodeHtml lang content])).2)
       | none => (c :: (fenceScanF g rest acc).1, (fenceScanF g rest acc).2)) := rfl

theorem fenceScan_snd_ok : ∀ (fuel : Nat) (l : List Char) (acc : List (List Char)),
    (∀ p ∈ acc, angleOk p = true) →
    ∀ p ∈ (fenceScanF fuel l acc).2, angleOk p = true := by
  intro fuel
  induction fuel with
  | zero =>
    intro l acc hacc p hp
    exact hacc p hp
  | succ g ih =>
    intro l acc hacc p hp
    cases l with
    | nil => exact hacc p hp
    | cons c rest =>
      rw [fenceScan_cons] at hp
      cases hfa : fenceAt (c :: rest) with
      | some t =>
        obtain ⟨lang, content, rest2⟩ := t
        rw [hfa] at hp
        refine ih rest2 (acc ++ [buildCodeHtml lang content]) ?_ p hp
        intro q hq
        rcases List.mem_append.mp hq with hq | hq
        · exact hacc q hq
        · rw [List.mem_singleton] at hq
          subst hq
          exact buildCodeHtml_angleOk lang content
      | none =>
        rw [hfa] at hp
        exact ih rest acc hacc p hp

theorem transformMarkdown_angleOk (source : List Char) :
    angleOk (transformMarkdown source) = true := by
  simp only [transformMarkdown]
  apply angleOk_restorePassF
  · intro p hp
    exact fenceScan_snd_ok _ _ [] (by intro q hq; simp at hq) p hp
  · apply angleOk_replaceChar_br
    apply angleOk_codeTickPassF
    apply angleOk_boldPassF
    exact angleOk_of_no_lt _ (escapeHtml_no_lt _)


theorem nn_cons_ne (c : Char) (rest : List Char) (hc : c ≠ '\r') :
    normalizeNewlines (c :: rest) = c :: normalizeNewlines rest := by
  rw [normalizeNewlines.eq_def]
  split <;> simp_all

theorem normalizeNewlines_id : ∀ (l : List Char), '\r' ∉ l → normalizeNewlines l = l
  | [], _ => rfl
  | c :: rest, h => by
      have hc : c ≠ '\r' := by
        intro he
        subst he
        exact h (List.mem_cons_self _ _)
      rw [nn_cons_ne c rest hc,
        normalizeNewlines_id rest (fun hm => h (List.mem_cons_of_mem c hm))]

theorem findClose_cons (c : Char) (rest : List Char) :
    findClose (c :: rest) =
      (if isTripleTick (c :: rest) then some ([], rest.drop 2)
       else (findClose rest).map (fun p => (c :: p.1, p.2))) := rfl

theorem isTripleTick_ne (x : Char) (rest : List Char) (hx : x ≠ btk) :
    isTripleTick (x :: rest) = false := by
  cases rest with
  | nil => rfl
  | cons b r2 =>
    cases r2 with
    | nil => rfl
    | cons c3 r3 => simp [isTripleTick, hx]

theorem findClose_append : ∀ (c : List Char) (r : List Char), btk ∉ c →
    findClose (c ++ btk :: btk :: btk :: r) = some (c, r)
  | [], r, _ => by
      rw [List.nil_append, findClose_cons,
        if_pos (show isTripleTick (btk :: btk :: btk :: r) = true by simp [isTripleTick])]
      rfl
  | x :: c, r, h => by
      have hx : x ≠ btk := by
        intro he
        subst he
        exact h (List.mem_cons_self _ _)
      have hc : btk ∉ c := fun hm => h (List.mem_cons_of_mem x hm)
      rw [List.cons_append, findClose_cons,
        if_neg (by simp [isTripleTick_ne _ _ hx]),
        findClose_append c r hc]
      rfl

theorem fenceAt_cons3 (a b c : Char) (rest : List Char) :
    fenceAt (a :: b :: c :: rest) =
      (if a = btk ∧ b = btk ∧ c = btk then
        (match rest.dropWhile isLangChar with
         | nl :: body =>
           if nl = '\n' then
             match findClose body with
             | some (content, rest2) => some (rest.takeWhile isLangChar, content, rest2)
             | none => none
           else none
         | [] => none)
       else none) := rfl

theorem fenceAt_tick3_nl (body : List Char) :
    fenceAt (btk :: btk :: btk :: '\n' :: body) =
      (match findClose body with
       | some (content, rest2) => some ([], content, rest2)
       | none => none) := by
  rw [fenceAt_cons3, if_pos ⟨rfl, rfl, rfl⟩]
  have hdw : ('\n' :: body).dropWhile isLangChar = '\n' :: body := by
    rw [List.dropWhile_cons, if_neg (by decide)]
  have htw : ('\n' :: body).takeWhile isLangChar = ([] : List Char) := by
    rw [List.takeWhile_cons, if_neg (by decide)]
  rw [hdw, htw]
  rfl

theorem fenceAt_fence (content : List Char) (hbtk : btk ∉ content) :
    fenceAt ("```\n".data ++ content ++ "```".data) = some ([], content, []) := by
  have hdata : "```\n".data ++ content ++ "```".data =
      btk :: btk :: btk :: '\n' :: (content ++ btk :: btk :: btk :: []) := by
    rw [show "```\n".data = btk :: btk :: btk :: ['\n'] from by decide,
      show "```".data = btk :: btk :: btk :: ([] : List Char) from by decide]
    simp
  rw [hdata, fenceAt_tick3_nl, findClose_append content [] hbtk]

theorem fenceScan_step (f : Nat) (hf : 0 < f) (l : List Char)
    (acc : List (List Char)) (lang content rest2 : List Char)
    (hfa : fenceAt l = some (lang, content, rest2)) :
    fenceScanF f l acc =
      (placeholderToken acc.length ++
         (fenceScanF (f - 1) rest2 (acc ++ [buildCodeHtml lang content])).1,
       (fenceScanF (f - 1) rest2 (acc ++ [buildCodeHtml lang content])).2) := by
  cases f with
  | zero => exact absurd hf (by simp)
  | succ g =>
    cases l with
    | nil =>
      rw [show fenceAt ([] : List Char) = none from rfl] at hfa
      exact Option.noConfusion hfa
    | cons c rest =>
      rw [fenceScan_cons, hfa]
      simp

theorem rp_nil_any (ph : List (List Char)) (f : Nat) : restorePassF ph f [] = [] := by
  cases f <;> rfl

theorem rp_single (ph : List (List Char)) :
    restorePassF ph ("__CODE_BLOCK_0__".data).length "__CODE_BLOCK_0__".data =
      ph.getD 0 [] := by
  have hform : ("__CODE_BLOCK_0__".data) = '_' :: "_CODE_BLOCK_0__".data := by decide
  rw [hform, List.length_cons, rp_cons]
  rw [show restoreAt ('_' :: "_CODE_BLOCK_0__".data) = some (0, ([] : List Char))
    from by decide]
  show ph.getD 0 [] ++ restorePassF ph ("_CODE_BLOCK_0__".data).length [] = ph.getD 0 []
  rw [rp_nil_any, List.append_nil]

theorem buildCodeHtml_nolang (content : List Char) :
    buildCodeHtml [] content =
      "<pre><code>".data ++ escapeHtml (dropTrailingNewlines content) ++
        "</code></pre>".data := by
  simp only [buildCodeHtml]
  rw [if_pos (show (normalizeLanguage []).isEmpty = true from by decide)]
  rw [List.append_nil]
  rw [show "<pre><code".data ++ ">".data = "<pre><code>".data from by decide]

theorem transform_fence (content : List Char) (hbtk : btk ∉ content)
    (hcr : '\r' ∉ content) :
    transformMarkdown ("```\n".data ++ content ++ "```".data) =
      "<pre><code>".data ++ escapeHtml (dropTrailingNewlines content) ++
        "</code></pre>".data := by
  have hnr : '\r' ∉ ("```\n".data ++ content ++ "```".data) := by
    intro hmem
    rw [List.mem_append, List.mem_append] at hmem
    rcases hmem with (h | h) | h
    · exact absurd h (by decide)
    · exact hcr h
    · exact absurd h (by decide)
  have hnorm : normalizeNewlines ("```\n".data ++ content ++ "```".data) =
      "```\n".data ++ content ++ "```".data := normalizeNewlines_id _ hnr
  have hpos : 0 < ("```\n".data ++ content ++ "```".data).length := by
    simp
  have hstep := fenceScan_step ("```\n".data ++ content ++ "```".data).length hpos
    ("```\n".data ++ content ++ "```".data) [] [] content []
    (fenceAt_fence content hbtk)
  have hscan1 : (fenceScanF ("```\n".data ++ content ++ "```".data).length
      ("```\n".data ++ content ++ "```".data) []).1 = "__CODE_BLOCK_0__".data := by
    rw [hstep, fenceScan_nil]
    exact (show placeholderToken 0 ++ ([] : List Char) = "__CODE_BLOCK_0__".data
      from by decide)
  have hscan2 : (fenceScanF ("```\n".data ++ content ++ "```".data).length
      ("```\n".data ++ content ++ "```".data) []).2 = [buildCodeHtml [] content] := by
    rw [hstep, fenceScan_nil]
    rfl
  simp only [transformMarkdown, hnorm, hscan1, hscan2]
  rw [show escapeHtml "__CODE_BLOCK_0__".data = "__CODE_BLOCK_0__".data from by decide]
  rw [show boldPassF ("__CODE_BLOCK_0__".data).length "__CODE_BLOCK_0__".data =
    "__CODE_BLOCK_0__".data from by decide]
  rw [show codeTickPassF ("__CODE_BLOCK_0__".data).length "__CODE_BLOCK_0__".data =
    "__CODE_BLOCK_0__".data from by decide]
  rw [show replaceChar '\n' "<br />".data "__CODE_BLOCK_0__".data =
    "__CODE_BLOCK_0__".data from by decide]
  rw [rp_single]
  rw [show ([buildCodeHtml [] content]).getD 0 [] = buildCodeHtml [] content from rfl]
  exact buildCodeHtml_nolang content


/-- C2: the markdown transform escapes before structural substitution and
restores code-block placeholders after. (1) For every source, the output
never contains an unescaped `<script` tag: every `<` in the output starts
one of the generated tags, because the escaped remainder has no `<` at all
and each substitution pass and the placeholder restoration preserve that
shape. (2) The concrete payload `<script>alert(1)</script>` outside a
fence produces exactly the escaped literal text. (3) The content of a
fenced code block (no backticks, no carriage returns) is HTML-escaped
exactly once: the transform of ```` ```\n<content>``` ```` is precisely
`<pre><code>` ++ escapeHtml (dropTrailingNewlines content) ++
`</code></pre>`, so `**bold**`-looking text inside the fence is rendered
literally. (4) In particular the transform of a fence holding `**bold**`
contains no `<strong>` tag. -/
theorem claim_C2 (source content : List Char)
    (hbtk : btk ∉ content) (hcr : '\r' ∉ content) :
    containsSeq "<script".data (transformMarkdown source) = false ∧
    transformMarkdown "<script>alert(1)</script>".data =
      "&lt;script&gt;alert(1)&lt;/script&gt;".data ∧
    transformMarkdown ("```\n".data ++ content ++ "```".data) =
      "<pre><code>".data ++ escapeHtml (dropTrailingNewlines content) ++
        "</code></pre>".data ∧
    containsSeq "<strong>".data (transformMarkdown "```\n**bold**\n```".data) = false :=
  ⟨no_script_of_angleOk _ (transformMarkdown_angleOk source),
   by decide,
   transform_fence content hbtk hcr,
   by decide⟩

/-- Witness for C2 at concrete inputs: the payload
`hi <script>alert(1)</script>` never yields a `<script` substring, and the
fenced content `**bold**\n` round-trips to its escaped literal form. -/
theorem claim_C2_witness :
    containsSeq "<script".data
      (transformMarkdown "hi <script>alert(1)</script>".data) = false ∧
    transformMarkdown ("```\n".data ++ "**bold**\n".data ++ "```".data) =
      "<pre><code>".data ++ escapeHtml (dropTrailingNewlines "**bold**\n".data) ++
        "</code></pre>".data := by
  have h := claim_C2 "hi <script>alert(1)</script>".data "**bold**\n".data
    (by decide) (by decide)
  exact ⟨h.1, h.2.2.1⟩

end MemoryGame
